import Mathlib

/-!
Verification development for the SimpleLLM backend (src/app.py).

The file shallowly embeds the `/chat` handler's `event_generator`: the
tool-call accumulator, the SSE stream-processing loops, and the
sequential-thinking orchestration loop, and proves the behavioural claims
about them.  Line numbers in doc comments refer to src/app.py.
-/

/-- A tool-call fragment as the code stores it: the dict
`\x7b"id": ..., "function": \x7b"name": ..., "arguments": ...\x7d\x7d`.
`id` and `name` are read with `.get` (absent modelled as `none`);
`arguments` is read with direct indexing (`['function']['arguments']`),
so it is modelled as the string the code concatenates onto. -/
structure ToolCall where
  id : Option String
  name : Option String
  arguments : String
deriving DecidableEq

/-- Merging one new tool-call fragment into the accumulated list
(app.py lines 301-311 and 455-463): scan for the first existing entry whose
`id` equals the new fragment's `id` (Python `==`, so two absent ids match);
on a match append the new `arguments` onto the stored ones and stop;
otherwise append the fragment at the end of the list. -/
def mergeCall : List ToolCall → ToolCall → List ToolCall
  | [], nc => [nc]
  | c :: rest, nc =>
    if c.id = nc.id then { c with arguments := c.arguments ++ nc.arguments } :: rest
    else c :: mergeCall rest nc

/-- The first merge loop's effect on the accumulator list, viewed on values
(app.py lines 296-311): if the accumulator is still empty (Python falsy) the
delta list replaces it verbatim; otherwise each fragment is merged with
`mergeCall`.  (The streaming turn additionally runs the second merge loop of
lines 322-330 over the same shared dicts; `applyToolDelta` models the
combined effect.) -/
def mergeDelta (acc : List ToolCall) (delta : List ToolCall) : List ToolCall :=
  if acc.isEmpty then delta else delta.foldl mergeCall acc

/-- Folding a sequence of `tool_calls` deltas through the first merge loop
alone, from an empty list: the per-delta merge rule of lines 296-311 in
isolation.  The turn-level accumulation (`processStream`) is *not* this
fold, because the assistant-message merge loop mutates the same dicts. -/
def accumulate (deltas : List (List ToolCall)) : List ToolCall :=
  deltas.foldl mergeDelta []

/-- Python truthiness of an optional string: `None` and `""` are falsy. -/
def pyTruthy : Option String → Bool
  | none => false
  | some s => !s.isEmpty

/-- The completeness test applied to a tool call at stream end
(app.py line 363 / 507): `if tool_name and arguments_string and tool_call_id`. -/
def isComplete (c : ToolCall) : Bool :=
  pyTruthy c.name && !c.arguments.isEmpty && pyTruthy c.id

/-- Which accumulated call the code acts upon (app.py lines 355-363 and
500-507): only element `[0]` is examined, and it is used only if it passes
the completeness test; otherwise the turn proceeds as if no call arrived. -/
def selectToolCall : List ToolCall → Option ToolCall
  | [] => none
  | c :: _ => if isComplete c then some c else none

/-- Concatenation of a list of strings, in order. -/
def concatAll : List String → String
  | [] => ""
  | s :: rest => s ++ concatAll rest

/- ### Helper lemmas on the accumulator -/

theorem mergeCall_not_found (acc : List ToolCall) (nc : ToolCall)
    (h : ∀ c ∈ acc, c.id ≠ nc.id) : mergeCall acc nc = acc ++ [nc] := by
  induction acc with
  | nil => rfl
  | cons c rest ih =>
    have hc : c.id ≠ nc.id := h c (List.mem_cons_self c rest)
    simp only [mergeCall, if_neg hc, List.cons_append, List.cons.injEq, true_and]
    exact ih fun c' hc' => h c' (List.mem_cons_of_mem c hc')

theorem mergeCall_found (pre : List ToolCall) (c : ToolCall) (post : List ToolCall)
    (nc : ToolCall) (hid : c.id = nc.id) (hpre : ∀ c' ∈ pre, c'.id ≠ nc.id) :
    mergeCall (pre ++ c :: post) nc
      = pre ++ { c with arguments := c.arguments ++ nc.arguments } :: post := by
  induction pre with
  | nil => simp [mergeCall, hid]
  | cons p pre ih =>
    have hp : p.id ≠ nc.id := hpre p (List.mem_cons_self p pre)
    simp only [List.cons_append, mergeCall, if_neg hp, List.cons.injEq, true_and]
    exact ih fun c' hc' => hpre c' (List.mem_cons_of_mem p hc')

theorem mergeDelta_single (i nm : Option String) (a : String) (nc : ToolCall)
    (hid : nc.id = i) :
    mergeDelta [ToolCall.mk i nm a] [nc]
      = [ToolCall.mk i nm (a ++ nc.arguments)] := by
  simp [mergeDelta, mergeCall, hid]

theorem accum_singletons (i nm : Option String) (a : String)
    (rest : List (Option String × String)) :
    (rest.map fun q => [ToolCall.mk i q.1 q.2]).foldl mergeDelta [ToolCall.mk i nm a]
      = [ToolCall.mk i nm (a ++ concatAll (rest.map Prod.snd))] := by
  induction rest generalizing a with
  | nil => simp [concatAll]
  | cons q rest ih =>
    simp only [List.map_cons, List.foldl_cons]
    rw [mergeDelta_single i nm a (ToolCall.mk i q.1 q.2) rfl, ih]
    simp [concatAll, String.append_assoc]

/- ### Claim C4 -/

/-- C4 counterexample input: a stored fragment whose `name` is absent,
followed by a second delta with the same id and a now-present `name`. -/
def c4Deltas : List (List ToolCall) :=
  [[ToolCall.mk (some "a") none "x"], [ToolCall.mk (some "a") (some "f") "y"]]

/-- C4 counterexample: the claim says a newly-present `name` in a later delta
for the same call overwrites an absent stored `name`.  The code only ever
concatenates `arguments` on a match; after merging `c4Deltas` the stored
`name` is still absent, not `some "f"`. -/
theorem merge_overwrite_cex :
    accumulate c4Deltas = [ToolCall.mk (some "a") none "xy"]
    ∧ accumulate c4Deltas ≠ [ToolCall.mk (some "a") (some "f") "xy"] := by
  constructor
  · rfl
  · decide

/-- C4 (amended): a delta whose id matches no stored entry is appended
verbatim; a delta whose id matches a stored entry (first match wins) has its
`arguments` concatenated onto the stored ones, while the stored `name` and
`id` fields are left untouched — absent fields are never filled in by later
deltas. -/
theorem merge_semantics (acc : List ToolCall) (nc : ToolCall) :
    ((∀ c ∈ acc, c.id ≠ nc.id) → mergeCall acc nc = acc ++ [nc])
    ∧ (∀ pre c post, acc = pre ++ c :: post → c.id = nc.id →
        (∀ c' ∈ pre, c'.id ≠ nc.id) →
        mergeCall acc nc
          = pre ++ { c with arguments := c.arguments ++ nc.arguments } :: post) := by
  refine ⟨fun h => mergeCall_not_found acc nc h, ?_⟩
  intro pre c post hacc hid hpre
  subst hacc
  exact mergeCall_found pre c post nc hid hpre

/-- Witness for `merge_semantics` at a concrete input: merging a fragment
with a matching id concatenates the arguments and keeps the stored
(absent) name. -/
theorem merge_semantics_witness :
    ((some "a" : Option String) = some "a")
    ∧ mergeCall [ToolCall.mk (some "a") none "x"] (ToolCall.mk (some "a") (some "f") "y")
        = [ToolCall.mk (some "a") none "xy"] := by
  refine ⟨rfl, ?_⟩
  have h := (merge_semantics [ToolCall.mk (some "a") none "x"]
      (ToolCall.mk (some "a") (some "f") "y")).2
      [] (ToolCall.mk (some "a") none "x") [] rfl rfl (by intro c' hc'; cases hc')
  simpa using h

/- ### The idealised single merge loop is splitting-invariant -/

/-- The *single* merge loop, taken in isolation, is splitting-invariant:
folding same-id fragments through `mergeDelta` alone reconstructs the
concatenation.  The streaming turn, however, runs the second merge loop
(app.py lines 322-330) over the same shared dicts and therefore double-
appends every post-first-chunk fragment — see `args_split_double` for the
turn-level behaviour. -/
theorem args_split_invariant (i nm : Option String) (p : String)
    (rest : List (Option String × String)) :
    accumulate ([ToolCall.mk i nm p] :: rest.map fun q => [ToolCall.mk i q.1 q.2])
      = [ToolCall.mk i nm (p ++ concatAll (rest.map Prod.snd))] := by
  have h0 : mergeDelta [] [ToolCall.mk i nm p] = [ToolCall.mk i nm p] := by
    simp [mergeDelta]
  simp only [accumulate, List.foldl_cons, h0]
  exact accum_singletons i nm p rest

/- ### The SSE stream-processing loop (app.py lines 272-352 / 432-497) -/

/-- One `delta` object of a parsed stream chunk (`chunk['choices'][0]['delta']`):
the two keys the code reads, each possibly absent. -/
structure Delta where
  tool_calls : Option (List ToolCall)
  content : Option String
deriving DecidableEq

/-- One raw line of the streaming HTTP response, classified the way the
code's per-line tests classify it:
* `blank` — empty or whitespace-only (skipped, line 274);
* `nonData s` — does not start with `"data: "` (skipped, line 349);
* `doneLine` — the payload strips to `[DONE]` (breaks the loop, line 283);
* `malformed s` — payload on which `json.loads` raises (skipped, line 341);
* `chunk d` — payload parsed to JSON; `d = none` models a chunk whose
  `choices` list is missing/empty or whose first choice has no truthy
  `delta` (skipped, lines 290-292). -/
inductive RawLine where
  | blank
  | nonData (s : String)
  | doneLine
  | malformed (s : String)
  | chunk (d : Option Delta)
deriving DecidableEq

/-- Whether a line is the `[DONE]` sentinel. -/
def RawLine.isDone : RawLine → Bool
  | .doneLine => true
  | _ => false

/-- The lines the code skips with `continue` without touching any state. -/
def isNoise : RawLine → Bool
  | .blank => true
  | .nonData _ => true
  | .malformed _ => true
  | .chunk none => true
  | _ => false

/-- Whether a line carries a `tool_calls` delta. -/
def hasToolDelta : RawLine → Bool
  | .chunk (some d) => d.tool_calls.isSome
  | _ => false

/-- The conforming chunks' deltas carried by a line sequence, in order. -/
def chunkDeltas (ls : List RawLine) : List Delta :=
  ls.foldr (fun l acc =>
    match l with
    | .chunk (some d) => d :: acc
    | _ => acc) []

/-- An event yielded to the client over the SSE channel. -/
inductive Ev where
  | errorEv (content : String)
  | contentEv (content : String)
  | toolStartEv (toolName : String) (args : String)
  | toolRespEv (toolName : String) (resp : String)
deriving DecidableEq

/-- Whether an event is a tool-call-start or tool-call-response notification. -/
def isToolEv : Ev → Bool
  | .toolStartEv _ _ => true
  | .toolRespEv _ _ => true
  | _ => false

/-- The in-progress assistant message rebuilt across a streaming turn
(`assistant_message_with_tool_calls`, app.py line 317), as its value is
observed at stream end: its role is always `"assistant"`. -/
structure AsstMsg where
  tool_calls : List ToolCall
  content : String
deriving DecidableEq

/-- Which list objects the turn's two tool-call variables hold.  Line 298
binds `accumulated_tool_calls` to the chunk's `delta['tool_calls']` list and
line 317 stores that *same list object* into
`assistant_message_with_tool_calls['tool_calls']`, so the fragment dicts are
shared between the two.  Fragments therefore live in an arena
(`StreamAcc.arena`; a dict's address is its allocation order) and each phase
holds lists of addresses:
* `noTool` — no `tool_calls` chunk seen yet: `accumulated_tool_calls` is the
  initial empty list (line 267) and the assistant message is `None`;
* `sameL addrs content` — both variables hold one shared list object whose
  contents are `addrs` (the normal case after the first `tool_calls` chunk);
* `diffL accAddrs asstAddrs content` — the variables hold two distinct list
  objects; this arises when line 298 rebinds `accumulated_tool_calls` while
  it is still falsy (a previous chunk's `tool_calls` was the empty list).
The dicts stay shared through the arena in every phase. -/
inductive TurnPhase where
  | noTool
  | sameL (addrs : List Nat) (content : String)
  | diffL (accAddrs : List Nat) (asstAddrs : List Nat) (content : String)
deriving DecidableEq

/-- Per-turn mutable state of a stream-processing loop: the tool-call dict
arena, the list-object phase, and `tool_call_in_progress`
(app.py lines 266-269 / 425-428). -/
structure StreamAcc where
  arena : List ToolCall
  phase : TurnPhase
  inProgress : Bool
deriving DecidableEq

/-- Reading a tool-call dict from the arena. -/
def arenaGet (arena : List ToolCall) (a : Nat) : ToolCall :=
  arena.getD a ⟨none, none, ""⟩

/-- One pass of a merge loop over one fragment (app.py lines 302-311 and
322-330 are the same code): scan the list for the first entry whose `id`
equals the fragment's (Python `==`, so two absent ids match); on a match
mutate that entry's dict, appending the fragment's current arguments — when
the scanned entry *is* the fragment itself (the first loop can append it
into a list the second loop then scans) its arguments are appended to
themselves; with no match, append the fragment's address to the list. -/
def mergeAddrInto (arena : List ToolCall) : List Nat → Nat → List ToolCall × List Nat
  | [], af => (arena, [af])
  | b :: rest, af =>
    if (arenaGet arena b).id = (arenaGet arena af).id then
      (arena.set b { arenaGet arena b with
        arguments := (arenaGet arena b).arguments ++ (arenaGet arena af).arguments },
       b :: rest)
    else
      ((mergeAddrInto arena rest af).1, b :: (mergeAddrInto arena rest af).2)

/-- One whole merge loop over a delta's fragments, in order. -/
def mergeAddrs (arena : List ToolCall) (addrs : List Nat) (afs : List Nat) :
    List ToolCall × List Nat :=
  afs.foldl (fun p af => mergeAddrInto p.1 p.2 af) (arena, addrs)

/-- The `if 'tool_calls' in delta:` block (app.py lines 293-333) on one
chunk: allocate the chunk's fragment dicts at the end of the arena, then
* `noTool`: bind `accumulated_tool_calls` to the chunk's list (line 298) and
  create the assistant message around the *same* list object (line 317);
* `sameL`/`diffL` with a non-empty accumulator list: run the first merge
  loop (lines 301-311) on the accumulator list, then the second merge loop
  (lines 322-330) over the *same fragments* on the assistant's list — in
  `sameL` that is the very list the first loop just updated, so each
  fragment's arguments end up appended twice;
* with an empty (falsy) accumulator list: rebind it to the chunk's list
  (line 298) without merging, and run only the second loop on the
  assistant's list, which stays a distinct object (`diffL`).
The assistant content is extended by the chunk's content (lines 331-333) and
`tool_call_in_progress` is set (line 313). -/
def applyToolDelta (s : StreamAcc) (tcs : List ToolCall) (optC : Option String) :
    StreamAcc :=
  let ar0 := s.arena ++ tcs
  let afs := List.range' s.arena.length tcs.length
  match s.phase with
  | .noTool => ⟨ar0, .sameL afs (optC.getD ""), true⟩
  | .sameL addrs content =>
    if addrs.isEmpty then
      let m2 := mergeAddrs ar0 addrs afs
      ⟨m2.1, .diffL afs m2.2 (content ++ optC.getD ""), true⟩
    else
      let m1 := mergeAddrs ar0 addrs afs
      let m2 := mergeAddrs m1.1 m1.2 afs
      ⟨m2.1, .sameL m2.2 (content ++ optC.getD ""), true⟩
  | .diffL accA asstA content =>
    if accA.isEmpty then
      let m2 := mergeAddrs ar0 asstA afs
      ⟨m2.1, .diffL afs m2.2 (content ++ optC.getD ""), true⟩
    else
      let m1 := mergeAddrs ar0 accA afs
      let m2 := mergeAddrs m1.1 asstA afs
      ⟨m2.1, .diffL m1.2 m2.2 (content ++ optC.getD ""), true⟩

/-- Processing one conforming chunk's delta: the `tool_calls` block when the
key is present, the identity otherwise. -/
def applyDelta (s : StreamAcc) (d : Delta) : StreamAcc :=
  match d.tool_calls with
  | some tcs => applyToolDelta s tcs d.content
  | none => s

/-- The value of `accumulated_tool_calls`: its list contents read through
the arena. -/
def StreamAcc.acc (s : StreamAcc) : List ToolCall :=
  match s.phase with
  | .noTool => []
  | .sameL addrs _ => addrs.map (arenaGet s.arena)
  | .diffL accA _ _ => accA.map (arenaGet s.arena)

/-- The value of `assistant_message_with_tool_calls`. -/
def StreamAcc.asstMsg (s : StreamAcc) : Option AsstMsg :=
  match s.phase with
  | .noTool => none
  | .sameL addrs content => some ⟨addrs.map (arenaGet s.arena), content⟩
  | .diffL _ asstA content => some ⟨asstA.map (arenaGet s.arena), content⟩

/-- The fresh state at the start of a streaming turn. -/
def initStreamAcc : StreamAcc := ⟨[], .noTool, false⟩

/-- Processing one non-`[DONE]` line of the stream (app.py lines 274-352):
noise lines leave the state unchanged and yield nothing; a chunk's delta is
applied with `applyDelta`; a `content` delta is yielded to the client only
while no tool call is in progress — checked after the delta itself was
applied (lines 336-339). -/
def stepLine (s : StreamAcc) : RawLine → StreamAcc × List Ev
  | .chunk (some d) =>
    match d.content with
    | some c =>
      if (applyDelta s d).inProgress then (applyDelta s d, [])
      else (applyDelta s d, [Ev.contentEv c])
    | none => (applyDelta s d, [])
  | _ => (s, [])

/-- The stream-processing `for` loop: process lines in order, stopping at the
first `[DONE]` sentinel (the `break` at app.py line 284 / 442). -/
def processLines (s : StreamAcc) : List RawLine → StreamAcc × List Ev
  | [] => (s, [])
  | l :: ls =>
    if l.isDone then (s, [])
    else
      ((processLines (stepLine s l).1 ls).1,
       (stepLine s l).2 ++ (processLines (stepLine s l).1 ls).2)

/-- A whole streaming turn, from the fresh state. -/
def processStream (ls : List RawLine) : StreamAcc × List Ev :=
  processLines initStreamAcc ls

/-- The content events a single line contributes while no tool call is in
progress. -/
def lineContent : RawLine → List Ev
  | .chunk (some d) =>
    match d.content with
    | some c => [Ev.contentEv c]
    | none => []
  | _ => []

/- ### Stream lemmas -/

theorem stepLine_noise (s : StreamAcc) (l : RawLine) (h : isNoise l = true) :
    stepLine s l = (s, []) := by
  cases l with
  | blank => rfl
  | nonData s' => rfl
  | doneLine => simp [isNoise] at h
  | malformed s' => rfl
  | chunk d =>
    cases d with
    | none => rfl
    | some d' => simp [isNoise] at h

theorem stepLine_chunk_fst (s : StreamAcc) (d : Delta) :
    (stepLine s (RawLine.chunk (some d))).1 = applyDelta s d := by
  cases hc : d.content with
  | none => simp [stepLine, hc]
  | some c =>
    simp only [stepLine, hc]
    split <;> rfl

theorem applyToolDelta_inProgress (s : StreamAcc) (tcs : List ToolCall)
    (optC : Option String) : (applyToolDelta s tcs optC).inProgress = true := by
  cases hp : s.phase with
  | noTool => simp [applyToolDelta, hp]
  | sameL addrs content =>
    simp only [applyToolDelta, hp]
    split <;> rfl
  | diffL accA asstA content =>
    simp only [applyToolDelta, hp]
    split <;> rfl

theorem applyDelta_no_tool (s : StreamAcc) (d : Delta) (h : d.tool_calls = none) :
    applyDelta s d = s := by
  simp [applyDelta, h]

theorem applyDelta_inProgress_of (s : StreamAcc) (d : Delta) (tcs : List ToolCall)
    (h : d.tool_calls = some tcs) : (applyDelta s d).inProgress = true := by
  simp only [applyDelta, h]
  exact applyToolDelta_inProgress s tcs d.content

theorem stepLine_inProgress (s : StreamAcc) (l : RawLine) (h : s.inProgress = true) :
    ((stepLine s l).1.inProgress = true) ∧ (stepLine s l).2 = [] := by
  cases l with
  | blank => exact ⟨h, rfl⟩
  | nonData s' => exact ⟨h, rfl⟩
  | doneLine => exact ⟨h, rfl⟩
  | malformed s' => exact ⟨h, rfl⟩
  | chunk d =>
    cases d with
    | none => exact ⟨h, rfl⟩
    | some d' =>
      have h1 : (applyDelta s d').inProgress = true := by
        cases htc : d'.tool_calls with
        | none => rw [applyDelta_no_tool s d' htc]; exact h
        | some tcs => exact applyDelta_inProgress_of s d' tcs htc
      refine ⟨?_, ?_⟩
      · rw [stepLine_chunk_fst]
        exact h1
      · cases hc : d'.content with
        | none => simp [stepLine, hc]
        | some c => simp [stepLine, hc, h1]

theorem processLines_inProgress (ls : List RawLine) (s : StreamAcc)
    (h : s.inProgress = true) : (processLines s ls).2 = [] := by
  induction ls generalizing s with
  | nil => rfl
  | cons l ls ih =>
    by_cases hd : l.isDone = true
    · simp [processLines, hd]
    · have hstep := stepLine_inProgress s l h
      simp only [processLines, hd, Bool.false_eq_true, if_false]
      rw [ih (stepLine s l).1 hstep.1, hstep.2]
      rfl

theorem processLines_stop_at_done (ls₁ ls₂ : List RawLine) (s : StreamAcc) :
    (∀ l ∈ ls₁, l ≠ RawLine.doneLine) →
    processLines s (ls₁ ++ RawLine.doneLine :: ls₂) = processLines s ls₁ := by
  induction ls₁ generalizing s with
  | nil => intro _; simp [processLines, RawLine.isDone]
  | cons l ls ih =>
    intro h
    have hl : l ≠ RawLine.doneLine := h l (List.mem_cons_self l ls)
    have hd : l.isDone = false := by cases l <;> simp_all [RawLine.isDone]
    simp only [List.cons_append, processLines, hd, Bool.false_eq_true, if_false,
      List.append_eq]
    rw [ih _ fun l' hl' => h l' (List.mem_cons_of_mem l hl')]

theorem processLines_filter_noise (ls : List RawLine) (s : StreamAcc) :
    processLines s (ls.filter fun l => !isNoise l) = processLines s ls := by
  induction ls generalizing s with
  | nil => rfl
  | cons l ls ih =>
    by_cases hn : isNoise l = true
    · have hd : l.isDone = false := by cases l <;> simp_all [isNoise, RawLine.isDone]
      have hfil : List.filter (fun l => !isNoise l) (l :: ls)
          = List.filter (fun l => !isNoise l) ls := by
        simp [List.filter_cons, hn]
      rw [hfil, ih]
      have hstep := stepLine_noise s l hn
      simp [processLines, hd, hstep]
    · have hn' : (!isNoise l) = true := by simp_all
      have hfil : List.filter (fun l => !isNoise l) (l :: ls)
          = l :: List.filter (fun l => !isNoise l) ls := by
        simp [List.filter_cons, hn']
      rw [hfil]
      by_cases hd : l.isDone = true
      · simp [processLines, hd]
      · simp only [processLines, hd, Bool.false_eq_true, if_false]
        rw [ih]

theorem processLines_state (ls : List RawLine) (s : StreamAcc) :
    (∀ l ∈ ls, l ≠ RawLine.doneLine) →
    (processLines s ls).1 = (chunkDeltas ls).foldl applyDelta s := by
  induction ls generalizing s with
  | nil => intro _; rfl
  | cons l ls ih =>
    intro h
    have hd : l.isDone = false := by
      have := h l (List.mem_cons_self l ls)
      cases l <;> simp_all [RawLine.isDone]
    have hrest : ∀ l' ∈ ls, l' ≠ RawLine.doneLine :=
      fun l' hl' => h l' (List.mem_cons_of_mem l hl')
    simp only [processLines, hd, Bool.false_eq_true, if_false]
    rw [ih _ hrest]
    cases l with
    | blank => rfl
    | nonData s' => rfl
    | doneLine => simp [RawLine.isDone] at hd
    | malformed s' => rfl
    | chunk d =>
      cases d with
      | none => rfl
      | some d' =>
        rw [stepLine_chunk_fst]
        rfl

theorem processLines_events (ls : List RawLine) (s : StreamAcc)
    (h : s.inProgress = false) :
    (processLines s ls).2
      = ((ls.takeWhile fun l => !l.isDone && !hasToolDelta l).map lineContent).flatten := by
  induction ls generalizing s with
  | nil => rfl
  | cons l ls ih =>
    by_cases hd : l.isDone = true
    · have : l = RawLine.doneLine := by cases l <;> simp_all [RawLine.isDone]
      subst this
      simp [processLines, RawLine.isDone, List.takeWhile]
    · have hd' : l.isDone = false := by simpa using hd
      by_cases ht : hasToolDelta l = true
      · -- the first tool-call delta: its own content is suppressed and the
        -- stream yields nothing afterwards
        cases l with
        | chunk d =>
          cases d with
          | none => simp [hasToolDelta] at ht
          | some d' =>
            obtain ⟨tcs, htc⟩ : ∃ tcs, d'.tool_calls = some tcs := by
              cases htc : d'.tool_calls with
              | none => simp [hasToolDelta, htc] at ht
              | some tcs => exact ⟨tcs, rfl⟩
            have hip : (applyDelta s d').inProgress = true :=
              applyDelta_inProgress_of s d' tcs htc
            have hstep1 : (stepLine s (RawLine.chunk (some d'))).1.inProgress = true := by
              rw [stepLine_chunk_fst]
              exact hip
            have hstep2 : (stepLine s (RawLine.chunk (some d'))).2 = [] := by
              cases hc : d'.content with
              | none => simp [stepLine, hc]
              | some c => simp [stepLine, hc, hip]
            simp only [processLines, RawLine.isDone, Bool.false_eq_true, if_false]
            rw [processLines_inProgress ls _ hstep1, hstep2]
            simp [List.takeWhile, hasToolDelta, htc, RawLine.isDone]
        | blank => simp [hasToolDelta] at ht
        | nonData s' => simp [hasToolDelta] at ht
        | doneLine => simp [RawLine.isDone] at hd'
        | malformed s' => simp [hasToolDelta] at ht
      · have ht' : hasToolDelta l = false := by simpa using ht
        have hkeep : (!l.isDone && !hasToolDelta l) = true := by simp [hd', ht']
        have hstate : (stepLine s l).1.inProgress = false := by
          cases l with
          | blank => exact h
          | nonData s' => exact h
          | doneLine => exact h
          | malformed s' => exact h
          | chunk d =>
            cases d with
            | none => exact h
            | some d' =>
              have htc : d'.tool_calls = none := by
                cases htc : d'.tool_calls with
                | none => rfl
                | some tcs => simp [hasToolDelta, htc] at ht'
              rw [stepLine_chunk_fst, applyDelta_no_tool s d' htc]
              exact h
        have hev : (stepLine s l).2 = lineContent l := by
          cases l with
          | blank => rfl
          | nonData s' => rfl
          | doneLine => rfl
          | malformed s' => rfl
          | chunk d =>
            cases d with
            | none => rfl
            | some d' =>
              have htc : d'.tool_calls = none := by
                cases htc : d'.tool_calls with
                | none => rfl
                | some tcs => simp [hasToolDelta, htc] at ht'
              cases hc : d'.content with
              | none => simp [stepLine, hc, lineContent]
              | some c =>
                simp [stepLine, hc, lineContent, applyDelta_no_tool s d' htc, h]
        simp only [processLines, hd', Bool.false_eq_true, if_false]
        rw [ih _ hstate, hev]
        simp [List.takeWhile, hkeep]

theorem processLines_events_content (ls : List RawLine) (s : StreamAcc) :
    ∀ e ∈ (processLines s ls).2, ∃ c, e = Ev.contentEv c := by
  induction ls generalizing s with
  | nil => intro e he; cases he
  | cons l ls ih =>
    by_cases hd : l.isDone = true
    · intro e he; simp [processLines, hd] at he
    · have hev : ∀ e ∈ (stepLine s l).2, ∃ c, e = Ev.contentEv c := by
        cases l with
        | blank => intro e he; cases he
        | nonData s' => intro e he; cases he
        | doneLine => intro e he; cases he
        | malformed s' => intro e he; cases he
        | chunk d =>
          cases d with
          | none => intro e he; cases he
          | some d' =>
            intro e he
            cases hc : d'.content with
            | none => simp [stepLine, hc] at he
            | some c =>
              simp only [stepLine, hc] at he
              by_cases hip : (applyDelta s d').inProgress = true
              · simp [hip] at he
              · rw [if_neg hip] at he
                exact ⟨c, by simpa using he⟩
      intro e he
      simp only [processLines, hd, Bool.false_eq_true, if_false, List.mem_append] at he
      rcases he with he | he
      · exact hev e he
      · exact ih _ e he

/- ### Claim C6 -/

/-- C6: robustness and ordering of the stream-processing loop.  For any lines
`ls₁` free of the `[DONE]` sentinel: (1) everything after the first `[DONE]`
is ignored — the loop terminates there; (2) dropping the skipped lines
(blank, non-`data: `, unparsable JSON, chunk without a usable delta) does not
change the result; (3) the parser state at stream end is the fold, in input
order, of the conforming chunks' deltas through the per-chunk transition
`applyDelta` — tool-call deltas are processed exactly in arrival order;
(4) the content events yielded are exactly the content of the conforming
lines, in input order, up to the first tool-call delta (from which point
content forwarding is suppressed). -/
theorem stream_loop_robust (ls₁ ls₂ : List RawLine)
    (h : ∀ l ∈ ls₁, l ≠ RawLine.doneLine) :
    processStream (ls₁ ++ RawLine.doneLine :: ls₂) = processStream ls₁
    ∧ processStream (ls₁.filter fun l => !isNoise l) = processStream ls₁
    ∧ (processStream ls₁).1 = (chunkDeltas ls₁).foldl applyDelta initStreamAcc
    ∧ (processStream ls₁).2
        = ((ls₁.takeWhile fun l => !l.isDone && !hasToolDelta l).map lineContent).flatten := by
  refine ⟨?_, ?_, ?_, ?_⟩
  · exact processLines_stop_at_done ls₁ ls₂ initStreamAcc h
  · exact processLines_filter_noise ls₁ initStreamAcc
  · exact processLines_state ls₁ initStreamAcc h
  · exact processLines_events ls₁ initStreamAcc rfl

/-- Concrete noisy input for the `stream_loop_robust` witness. -/
def c6Lines : List RawLine :=
  [RawLine.blank, RawLine.chunk (some ⟨none, some "hi"⟩), RawLine.nonData ": keep-alive",
   RawLine.malformed "data: oops", RawLine.chunk none,
   RawLine.chunk (some ⟨none, some " there"⟩)]

/-- Witness for `stream_loop_robust` at a concrete noisy input. -/
theorem stream_loop_robust_witness :
    (∀ l ∈ c6Lines, l ≠ RawLine.doneLine)
    ∧ processStream (c6Lines ++ RawLine.doneLine :: [RawLine.chunk (some ⟨none, some "late"⟩)])
        = processStream c6Lines := by
  refine ⟨by decide, ?_⟩
  exact (stream_loop_robust c6Lines [RawLine.chunk (some ⟨none, some "late"⟩)] (by decide)).1

/- ### Claim C7 -/

theorem listGetD_append_lt {α : Type} (l l2 : List α) (d : α) :
    ∀ n, n < l.length → (l ++ l2).getD n d = l.getD n d := by
  induction l with
  | nil => intro n h; exact absurd h (Nat.not_lt_zero n)
  | cons x xs ih =>
    intro n h
    cases n with
    | zero => rfl
    | succ n => exact ih n (Nat.lt_of_succ_lt_succ h)

theorem listGetD_concat_self {α : Type} (l : List α) (f d : α) :
    (l ++ [f]).getD l.length d = f := by
  induction l with
  | nil => rfl
  | cons x xs ih => exact ih

theorem listGetD_set_self {α : Type} (l : List α) (v d : α) :
    ∀ n, n < l.length → (l.set n v).getD n d = v := by
  induction l with
  | nil => intro n h; exact absurd h (Nat.not_lt_zero n)
  | cons x xs ih =>
    intro n h
    cases n with
    | zero => rfl
    | succ n => exact ih n (Nat.lt_of_succ_lt_succ h)

theorem listGetD_set_ne {α : Type} (l : List α) (v d : α) :
    ∀ m n, m ≠ n → (l.set m v).getD n d = l.getD n d := by
  induction l with
  | nil => intro m n _; rfl
  | cons x xs ih =>
    intro m n hmn
    cases m with
    | zero =>
      cases n with
      | zero => exact absurd rfl hmn
      | succ n => rfl
    | succ m =>
      cases n with
      | zero => rfl
      | succ n => exact ih m n fun he => hmn (by rw [he])

theorem mergeAddrs_one (arena : List ToolCall) (addrs : List Nat) (af : Nat) :
    mergeAddrs arena addrs [af] = mergeAddrInto arena addrs af := rfl

theorem mergeAddrInto_head_match (arena : List ToolCall) (b : Nat) (rest : List Nat)
    (af : Nat) (h : (arenaGet arena b).id = (arenaGet arena af).id) :
    mergeAddrInto arena (b :: rest) af
      = (arena.set b { arenaGet arena b with
          arguments := (arenaGet arena b).arguments ++ (arenaGet arena af).arguments },
         b :: rest) := by
  simp [mergeAddrInto, h]

/-- One subsequent single-fragment chunk in the `sameL` phase: the first
merge loop appends the fragment's arguments to the stored call, then the
second merge loop — scanning the *same* shared list — appends them again. -/
theorem applyToolDelta_single_step (ar : List ToolCall) (cnt : String)
    (i nm : Option String) (a : String) (f : ToolCall)
    (h0 : arenaGet ar 0 = ⟨i, nm, a⟩) (hlen : 0 < ar.length) (hfid : f.id = i) :
    applyToolDelta ⟨ar, .sameL [0] cnt, true⟩ [f] none
      = ⟨(ar ++ [f]).set 0 ⟨i, nm, a ++ f.arguments ++ f.arguments⟩,
         .sameL [0] (cnt ++ ""), true⟩ := by
  have hlp : 0 < (ar ++ [f]).length := by
    rw [List.length_append]
    omega
  have hget0 : arenaGet (ar ++ [f]) 0 = ⟨i, nm, a⟩ := by
    unfold arenaGet
    rw [listGetD_append_lt ar [f] _ 0 hlen]
    exact h0
  have hgetL : arenaGet (ar ++ [f]) ar.length = f := by
    unfold arenaGet
    exact listGetD_concat_self ar f _
  have hm1 : mergeAddrs (ar ++ [f]) [0] [ar.length]
      = ((ar ++ [f]).set 0 ⟨i, nm, a ++ f.arguments⟩, [0]) := by
    rw [mergeAddrs_one,
      mergeAddrInto_head_match (ar ++ [f]) 0 [] ar.length (by rw [hget0, hgetL, hfid]),
      hget0, hgetL]
  have hne : (0 : Nat) ≠ ar.length := by omega
  have hget0' : arenaGet ((ar ++ [f]).set 0 ⟨i, nm, a ++ f.arguments⟩) 0
      = ⟨i, nm, a ++ f.arguments⟩ := by
    unfold arenaGet
    exact listGetD_set_self _ _ _ 0 hlp
  have hgetL' : arenaGet ((ar ++ [f]).set 0 ⟨i, nm, a ++ f.arguments⟩) ar.length = f := by
    unfold arenaGet
    rw [listGetD_set_ne _ _ _ 0 ar.length hne]
    exact listGetD_concat_self ar f _
  have hm2 : mergeAddrs ((ar ++ [f]).set 0 ⟨i, nm, a ++ f.arguments⟩) [0] [ar.length]
      = (((ar ++ [f]).set 0 ⟨i, nm, a ++ f.arguments⟩).set 0
          ⟨i, nm, a ++ f.arguments ++ f.arguments⟩, [0]) := by
    rw [mergeAddrs_one,
      mergeAddrInto_head_match _ 0 [] ar.length (by rw [hget0', hgetL', hfid]),
      hget0', hgetL']
  simp only [applyToolDelta]
  rw [if_neg (by simp)]
  rw [show List.range' ar.length (List.length ([f] : List ToolCall)) = [ar.length] from rfl]
  rw [hm1]
  dsimp only
  rw [hm2]
  dsimp only
  rw [List.set_set]
  rfl

/-- Threading `applyToolDelta_single_step` through a whole suffix of
single-fragment same-id chunks: every fragment's text is appended twice. -/
theorem double_merge_singleton (i nm : Option String) :
    ∀ (rest : List (Option String × String)) (ar : List ToolCall) (a cnt : String),
      arenaGet ar 0 = ⟨i, nm, a⟩ → 0 < ar.length →
      (processLines ⟨ar, .sameL [0] cnt, true⟩
          (rest.map fun q => RawLine.chunk (some ⟨some [⟨i, q.1, q.2⟩], none⟩))).1.acc
        = [ToolCall.mk i nm (a ++ concatAll (rest.map fun q => q.2 ++ q.2))] := by
  intro rest
  induction rest with
  | nil =>
    intro ar a cnt h0 hlen
    simp [processLines, StreamAcc.acc, concatAll, h0]
  | cons q rest ih =>
    intro ar a cnt h0 hlen
    simp only [List.map_cons, processLines]
    rw [if_neg (by simp [RawLine.isDone])]
    dsimp only
    rw [stepLine_chunk_fst]
    simp only [applyDelta]
    rw [applyToolDelta_single_step ar cnt i nm a ⟨i, q.1, q.2⟩ h0 hlen rfl]
    have hlp : 0 < (ar ++ [(⟨i, q.1, q.2⟩ : ToolCall)]).length := by
      rw [List.length_append]
      omega
    have hlc : 0 < ((ar ++ [(⟨i, q.1, q.2⟩ : ToolCall)]).set 0
        (⟨i, nm, a ++ q.2 ++ q.2⟩ : ToolCall)).length := by
      rw [List.length_set]
      exact hlp
    have hget : arenaGet ((ar ++ [(⟨i, q.1, q.2⟩ : ToolCall)]).set 0
        ⟨i, nm, a ++ q.2 ++ q.2⟩) 0 = ⟨i, nm, a ++ q.2 ++ q.2⟩ := by
      unfold arenaGet
      exact listGetD_set_self _ _ _ 0 hlp
    rw [ih _ (a ++ q.2 ++ q.2) (cnt ++ "") hget hlc]
    simp [concatAll, String.append_assoc]

/-- C7 (amended): argument accumulation is NOT splitting-invariant at the
turn level.  Because `accumulated_tool_calls` and the assistant message's
`tool_calls` alias the same dicts (app.py 298/317), both merge loops append
each post-first-chunk fragment, so delivering a string split as
`p, q1, ..., qk` in successive same-id deltas reconstructs
`p ++ q1 ++ q1 ++ ... ++ qk ++ qk` as the call's final arguments — each
later fragment's text appears twice.  (The single merge loop in isolation
is splitting-invariant: `args_split_invariant`.) -/
theorem args_split_double (i nm : Option String) (p : String)
    (rest : List (Option String × String)) (hp : p ≠ "")
    (hr : ∀ q ∈ rest, q.2 ≠ "") :
    (processStream (RawLine.chunk (some ⟨some [⟨i, nm, p⟩], none⟩)
        :: rest.map fun q => RawLine.chunk (some ⟨some [⟨i, q.1, q.2⟩], none⟩))).1.acc
      = [ToolCall.mk i nm (p ++ concatAll (rest.map fun q => q.2 ++ q.2))] := by
  have hfirst : (stepLine initStreamAcc
      (RawLine.chunk (some ⟨some [⟨i, nm, p⟩], none⟩))).1
        = ⟨[⟨i, nm, p⟩], .sameL [0] "", true⟩ := rfl
  show (processLines initStreamAcc _).1.acc = _
  simp only [processLines]
  rw [if_neg (by simp [RawLine.isDone])]
  dsimp only
  rw [hfirst]
  exact double_merge_singleton i nm rest [⟨i, nm, p⟩] p "" rfl (by simp)

/-- The delta chunks of the C7 counterexample: the complete arguments string
`"abcdef"` split as `"ab"`, `"cd"`, `"ef"` across three same-id chunks. -/
def c7Body : List RawLine :=
  [RawLine.chunk (some ⟨some [⟨some "a", some "f", "ab"⟩], none⟩),
   RawLine.chunk (some ⟨some [⟨some "a", none, "cd"⟩], none⟩),
   RawLine.chunk (some ⟨some [⟨some "a", none, "ef"⟩], none⟩)]

/-- The C7 counterexample stream: the three chunks then the sentinel. -/
def c7Lines : List RawLine := c7Body ++ [RawLine.doneLine]

/-- C7 counterexample: delivering `"abcdef"` as `"ab"`, `"cd"`, `"ef"` does
NOT reconstruct `"abcdef"` — the turn accumulates `"abcdcdefef"`, because
the second merge loop (app.py 322-330) appends each later fragment's text a
second time through the shared dicts. -/
theorem args_double_append_cex :
    (processStream c7Lines).1.acc = [ToolCall.mk (some "a") (some "f") "abcdcdefef"]
    ∧ (processStream c7Lines).1.acc ≠ [ToolCall.mk (some "a") (some "f") "abcdef"] :=
  ⟨rfl, by decide⟩

/-- Witness for `args_split_double` at the concrete split. -/
theorem args_split_double_witness :
    ("ab" : String) ≠ ""
    ∧ (processStream c7Lines).1.acc = [ToolCall.mk (some "a") (some "f") "abcdcdefef"] := by
  refine ⟨by decide, ?_⟩
  have hstop : processStream c7Lines = processStream c7Body :=
    processLines_stop_at_done c7Body [] initStreamAcc (by decide)
  rw [hstop]
  have h := args_split_double (some "a") (some "f") "ab"
      [(none, "cd"), (none, "ef")] (by decide) (by decide)
  exact h.trans (by decide)

/- ### Conversation data (app.py lines 21-25, 124-129, 180-192) -/

/-- One part of a multimodal message content list. -/
inductive MsgPart where
  | textPart (text : String)
  | imagePart (url : String)
deriving DecidableEq

/-- Message content: either plain text or a multimodal parts list. -/
inductive Content where
  | text (s : String)
  | parts (ps : List MsgPart)
deriving DecidableEq

/-- A conversation message (`ChatMessage`, app.py lines 21-25). -/
structure Msg where
  role : String
  content : Content
  tool_call_id : Option String
  tool_calls : Option (List ToolCall)
deriving DecidableEq

/-- The inbound `/chat` request body (`ChatRequest`, app.py lines 124-129). -/
structure ChatRequest where
  prompt : String
  apiKey : Option String
  modelId : Option String
  imageData : Option String
  messages : List Msg
deriving DecidableEq

/-- The image-attachment rewrite of the message history (app.py lines
180-192): if `imageData` is truthy and the history is non-empty, the image is
appended to the last message's content when that message is from the user
(coercing plain text content to a parts list first); otherwise a fresh user
message with the prompt text and the image is appended.  Because
`messages_payload` aliases `request.messages` and the last message object is
mutated in place, the rewritten list is what both the first upstream payload
and `messages_for_next_call` (line 387) observe. -/
def applyImage (imageData : Option String) (prompt : String) (msgs : List Msg) :
    List Msg :=
  match imageData with
  | none => msgs
  | some img =>
    if img.isEmpty then msgs
    else
      match msgs.getLast? with
      | none => msgs
      | some last =>
        if last.role = "user" then
          let base : List MsgPart :=
            match last.content with
            | .parts ps => ps
            | .text s => [MsgPart.textPart s]
          msgs.dropLast
            ++ [{ last with content := Content.parts (base ++ [MsgPart.imagePart img]) }]
        else
          msgs ++ [⟨"user", Content.parts [MsgPart.textPart prompt, MsgPart.imagePart img],
                    none, none⟩]

/- ### Upstream payloads and the tool schema (app.py lines 194-256) -/

/-- The declared function-tool schema, as the data the code puts in the
`tools` list (app.py lines 195-248). -/
structure ToolFunctionSchema where
  name : String
  description : String
  paramNames : List String
  requiredParams : List String
deriving DecidableEq

/-- The single fixed `sequentialthinking` tool definition
(app.py lines 195-248). -/
def sequentialThinkingTool : ToolFunctionSchema :=
  { name := "sequentialthinking"
    description := "A detailed tool for dynamic and reflective problem-solving through thoughts. This tool helps analyze problems through a flexible thinking process that can adapt and evolve. Each thought can build on, question, or revise previous insights as understanding deepens."
    paramNames := ["thought", "nextThoughtNeeded", "thoughtNumber", "totalThoughts",
      "isRevision", "revisesThought", "branchFromThought", "branchId"]
    requiredParams := ["thought", "nextThoughtNeeded", "thoughtNumber", "totalThoughts"] }

/-- An upstream chat-completion request body.  `tools`/`tool_choice` are
`none` when the corresponding JSON key is absent.  A `none` entry of
`messages` models Python `None` in the list (line 532 can append the
optional accumulated assistant message). -/
structure Payload where
  model : String
  messages : List (Option Msg)
  tools : Option (List ToolFunctionSchema)
  tool_choice : Option String
  stream : Bool
deriving DecidableEq

/-- A tool-offering request body: `payload` (line 250) and
`payload_next_call` (line 411) have exactly this shape. -/
def iterPayload (modelId : String) (msgs : List (Option Msg)) : Payload :=
  ⟨modelId, msgs, some [sequentialThinkingTool], some "auto", true⟩

/-- The finalization request body `payload_final_call` (lines 569-574):
no `tools`, no `tool_choice`. -/
def finalPayload (modelId : String) (msgs : List (Option Msg)) : Payload :=
  ⟨modelId, msgs, none, none, true⟩

/- ### The environment: upstream and tool collaborators -/

/-- Result of `json.loads` on the tool's textual result: either a
`JSONDecodeError` or a parsed object from which only the
`nextThoughtNeeded` field is read (absent modelled as `none`). -/
inductive ToolResultJson where
  | parseFail
  | obj (nextThoughtNeeded : Option Bool)
deriving DecidableEq

/-- One tool invocation's observable behaviour.  `raises` models the
invocation raising an exception — `mcp_client.call_tool` failing or the
result's first content item being unreadable — caught by the
`except Exception` handlers at app.py 548-551 (in the loop, after the
`tool_call_start` event was already yielded at 513) and 615-617 (first
turn).  When `raises` is false, `text` is the textual result
(`tool_response_content[0].text`) and `json` is what parsing it as JSON
yields. -/
structure ToolOutcome where
  raises : Bool
  text : String
  json : ToolResultJson
deriving DecidableEq

/-- The run's external collaborators, fixed up front: the stream returned by
the first upstream request, the stream returned by the iteration-`k` request
(`k` is the 1-based `iteration_count`), the stream returned by the
finalization request, the behaviour of the `k`-th tool invocation (0-based;
invocation 0 is the first turn's), and whether `json.loads` succeeds on a
given accumulated arguments string.  An environment is realizable only when
`argsParseOk` and each outcome's `json` field agree with real JSON parsing
of the strings involved; the concrete environments below are instantiated
that way. -/
structure Env where
  firstStream : List RawLine
  iterStream : Nat → List RawLine
  finalStream : List RawLine
  toolOutcome : Nat → ToolOutcome
  argsParseOk : String → Bool

/-- The loop-continuation flag (app.py lines 393-400 and 536-542): parse the
tool's textual result as JSON and read `nextThoughtNeeded` with default
`False`; a parse failure also defaults to `False`. -/
def nextThoughtOf : ToolResultJson → Bool
  | .parseFail => false
  | .obj f => f.getD false

/-- The reconstructed assistant message carrying the accumulated tool calls
(app.py line 317). -/
def asstToMsg (m : AsstMsg) : Msg :=
  ⟨"assistant", Content.text m.content, none, some m.tool_calls⟩

/-- The `tool`-role message fed back into the conversation
(app.py lines 380-384 and 525-529). -/
def toolMsg (callId text : String) : Msg :=
  ⟨"tool", Content.text text, some callId, none⟩

/- ### The orchestration loop (app.py lines 392-631) -/

/-- `max_iterations` (app.py line 403). -/
def maxIterations : Nat := 10

/-- Error message for a missing API key (line 162). -/
def apiKeyErrMsg : String := "Configuration error: API key not provided."

/-- Error message for a missing model id (line 166). -/
def modelErrMsg : String := "modelId is required for openrouter mode"

/-- The capped-iteration error message (line 563). -/
def cappedMsg : String :=
  "Maximum iterations (" ++ toString maxIterations ++ ") reached for sequential thinking."

/-- The capped-iteration error event (line 563). -/
def cappedEvent : Ev := Ev.errorEv cappedMsg

/-- First-turn argument-parse error message (line 614; the appended Python
exception text is elided). -/
def argsErrMsg : String := "Error parsing tool call arguments: "

/-- In-loop argument-parse error message (line 546; the appended Python
exception text is elided). -/
def argsErrIterMsg (k : Nat) : String :=
  "Error parsing tool call arguments in iteration " ++ toString k ++ ": "

/-- First-turn tool-invocation error message (line 617; the appended Python
exception text is elided). -/
def toolErrMsg : String := "Error processing tool call: "

/-- In-loop tool-invocation error message (line 550; the appended Python
exception text is elided). -/
def toolErrIterMsg (k : Nat) : String :=
  "Error processing tool call in iteration " ++ toString k ++ ": "

/-- State carried across passes of the `while` loop: `messages_for_next_call`,
`next_thought_needed`, `iteration_count`, and the index of the next tool
invocation. -/
structure LoopSt where
  msgs : List (Option Msg)
  ntn : Bool
  count : Nat
  toolIdx : Nat
deriving DecidableEq

/-- One loop tool invocation: name, raw arguments, the tool's textual
response (meaningless when the invocation raised), and whether it raised
instead of returning. -/
structure LoopToolRec where
  name : String
  args : String
  resp : String
  raised : Bool
deriving DecidableEq

/-- The loop's observable outcome: the `iteration_count` value of every
executed pass in order, the upstream request issued by each pass, the client
events yielded, the tool invocations performed, and the final state. -/
structure LoopOut where
  iterCounts : List Nat
  payloads : List Payload
  events : List Ev
  tools : List LoopToolRec
  msgs : List (Option Msg)
  ntn : Bool
  count : Nat
deriving DecidableEq

/-- The `while next_thought_needed and iteration_count < max_iterations`
loop (app.py lines 406-558), written with explicit fuel.  Each pass
increments the count, issues a tool-offering request, processes its stream,
and then: if the head accumulated call is complete and its arguments parse,
emits `tool_call_start` and invokes the tool (lines 507-516); on a returning
invocation it emits `tool_call_response`, appends the assistant and tool
messages and recomputes the flag (lines 520-542); on a raising invocation
the `except Exception` handler emits an error — leaving the start event
unpaired — and clears the flag (lines 548-551); if the arguments fail to
parse, emits an error and clears the flag (lines 544-547); if there is no
complete head call, clears the flag (lines 552-558). -/
def runLoopAux (env : Env) (modelId : String) : Nat → LoopSt → LoopOut
  | 0, st => ⟨[], [], [], [], st.msgs, st.ntn, st.count⟩
  | fuel + 1, st =>
    if st.ntn = true ∧ st.count < maxIterations then
      let count1 := st.count + 1
      let pay := iterPayload modelId st.msgs
      let sres := processStream (env.iterStream count1)
      match selectToolCall sres.1.acc with
      | some c =>
        if env.argsParseOk c.arguments then
          if (env.toolOutcome st.toolIdx).raises then
            let rest := runLoopAux env modelId fuel ⟨st.msgs, false, count1, st.toolIdx + 1⟩
            ⟨count1 :: rest.iterCounts, pay :: rest.payloads,
             sres.2 ++ [Ev.toolStartEv (c.name.getD "") c.arguments,
               Ev.errorEv (toolErrIterMsg count1)] ++ rest.events,
             ⟨c.name.getD "", c.arguments, "", true⟩ :: rest.tools,
             rest.msgs, rest.ntn, rest.count⟩
          else
            let outcome := env.toolOutcome st.toolIdx
            let trec : LoopToolRec := ⟨c.name.getD "", c.arguments, outcome.text, false⟩
            let msgs1 := st.msgs
              ++ [(sres.1.asstMsg.map asstToMsg : Option Msg),
                  some (toolMsg (c.id.getD "") outcome.text)]
            let rest := runLoopAux env modelId fuel
              ⟨msgs1, nextThoughtOf outcome.json, count1, st.toolIdx + 1⟩
            ⟨count1 :: rest.iterCounts, pay :: rest.payloads,
             sres.2 ++ [Ev.toolStartEv trec.name trec.args,
               Ev.toolRespEv trec.name trec.resp] ++ rest.events,
             trec :: rest.tools, rest.msgs, rest.ntn, rest.count⟩
        else
          let rest := runLoopAux env modelId fuel ⟨st.msgs, false, count1, st.toolIdx⟩
          ⟨count1 :: rest.iterCounts, pay :: rest.payloads,
           sres.2 ++ [Ev.errorEv (argsErrIterMsg count1)] ++ rest.events,
           rest.tools, rest.msgs, rest.ntn, rest.count⟩
      | none =>
        let rest := runLoopAux env modelId fuel ⟨st.msgs, false, count1, st.toolIdx⟩
        ⟨count1 :: rest.iterCounts, pay :: rest.payloads, sres.2 ++ rest.events,
         rest.tools, rest.msgs, rest.ntn, rest.count⟩
    else ⟨[], [], [], [], st.msgs, st.ntn, st.count⟩

/-- The loop entered with the fuel that the bound makes sufficient: since the
guard requires `count < maxIterations` and every pass increments `count`,
`maxIterations - count` passes always exhaust the guard before the fuel. -/
def runLoop (env : Env) (modelId : String) (st : LoopSt) : LoopOut :=
  runLoopAux env modelId (maxIterations - st.count) st

/-- The finalization stream loop (app.py lines 583-610): content deltas are
yielded unconditionally (no tool-call suppression), stopping at `[DONE]`. -/
def processFinalLines : List RawLine → List Ev
  | [] => []
  | l :: ls => if l.isDone then [] else lineContent l ++ processFinalLines ls

/-- The observable trace of one `/chat` run: the client events in order, the
upstream requests in order, the first-turn tool invocation (name, raw
arguments) if one was issued — whether or not it raised — the loop's tool
invocations, the
`iteration_count` of each executed loop pass, and the values of
`iteration_count` / `next_thought_needed` after the loop (0 / `false` on
paths that never reach the loop). -/
structure Trace where
  events : List Ev
  requests : List Payload
  firstToolCall : Option (String × String)
  loopTools : List LoopToolRec
  loopIterCounts : List Nat
  loopCount : Nat
  loopNtn : Bool
deriving DecidableEq

/-- The first upstream request of a run (app.py lines 250-256): the
image-rewritten history with the tool schema offered. -/
def firstPayload (req : ChatRequest) : Payload :=
  iterPayload (req.modelId.getD "")
    ((applyImage req.imageData req.prompt req.messages).map some)

/-- `messages_for_next_call` right after the first tool invocation (app.py
lines 387-390): the request history, then the accumulated assistant message
if one was built (line 388's truthiness check), then the `tool`-role message
carrying the first invocation's textual result. -/
def chatMsgs0 (req : ChatRequest) (env : Env) (c : ToolCall) : List (Option Msg) :=
  (applyImage req.imageData req.prompt req.messages).map some
  ++ (match (processStream env.firstStream).1.asstMsg with
      | some m => [some (asstToMsg m)]
      | none => [])
  ++ [some (toolMsg (c.id.getD "") (env.toolOutcome 0).text)]

/-- The sequential-thinking loop as entered from the first invocation
(app.py lines 402-406): `iteration_count = 0`, flag from the first tool
result, tool-invocation index 1. -/
def chatLoop (req : ChatRequest) (env : Env) (c : ToolCall) : LoopOut :=
  runLoop env (req.modelId.getD "")
    ⟨chatMsgs0 req env c, nextThoughtOf (env.toolOutcome 0).json, 0, 1⟩

/-- The capped-iteration report (app.py lines 561-563): emitted whenever the
loop ended with `iteration_count >= max_iterations`. -/
def cappedEvents (req : ChatRequest) (env : Env) (c : ToolCall) : List Ev :=
  if maxIterations ≤ (chatLoop req env c).count then [cappedEvent] else []

/-- The `/chat` `event_generator` (app.py lines 148-629): credential checks
(160-167), image rewrite (180-192), first tool-offering request and its
stream (250-352), head-call completeness gate and first tool invocation —
with no start/response events — (355-400), whose raising aborts the run with
one error event (615-617), the bounded sequential-thinking loop (402-558),
the capped-iteration report (561-563), and the finalization call guarded by
`not next_thought_needed` (566-610). -/
def runChat (req : ChatRequest) (env : Env) : Trace :=
  if pyTruthy req.apiKey = false then
    ⟨[Ev.errorEv apiKeyErrMsg], [], none, [], [], 0, false⟩
  else if pyTruthy req.modelId = false then
    ⟨[Ev.errorEv modelErrMsg], [], none, [], [], 0, false⟩
  else
    match selectToolCall (processStream env.firstStream).1.acc with
    | none =>
      ⟨(processStream env.firstStream).2, [firstPayload req], none, [], [], 0, false⟩
    | some c =>
      if env.argsParseOk c.arguments then
        if (env.toolOutcome 0).raises then
          ⟨(processStream env.firstStream).2 ++ [Ev.errorEv toolErrMsg],
           [firstPayload req], some (c.name.getD "", c.arguments), [], [], 0, false⟩
        else if (chatLoop req env c).ntn then
          ⟨(processStream env.firstStream).2 ++ (chatLoop req env c).events
             ++ cappedEvents req env c,
           firstPayload req :: (chatLoop req env c).payloads,
           some (c.name.getD "", c.arguments), (chatLoop req env c).tools,
           (chatLoop req env c).iterCounts, (chatLoop req env c).count,
           (chatLoop req env c).ntn⟩
        else
          ⟨(processStream env.firstStream).2 ++ (chatLoop req env c).events
             ++ cappedEvents req env c ++ processFinalLines env.finalStream,
           firstPayload req :: (chatLoop req env c).payloads
             ++ [finalPayload (req.modelId.getD "") (chatLoop req env c).msgs],
           some (c.name.getD "", c.arguments), (chatLoop req env c).tools,
           (chatLoop req env c).iterCounts, (chatLoop req env c).count,
           (chatLoop req env c).ntn⟩
      else
        ⟨(processStream env.firstStream).2 ++ [Ev.errorEv argsErrMsg],
         [firstPayload req], none, [], [], 0, false⟩


/- ### Helper lemmas on events and the loop -/

theorem lineContent_content (l : RawLine) (e : Ev) (he : e ∈ lineContent l) :
    ∃ c, e = Ev.contentEv c := by
  cases l with
  | blank => cases he
  | nonData s' => cases he
  | doneLine => cases he
  | malformed s' => cases he
  | chunk d =>
    cases d with
    | none => cases he
    | some d' =>
      cases hc : d'.content with
      | none => simp [lineContent, hc] at he
      | some c =>
        simp only [lineContent, hc, List.mem_singleton] at he
        exact ⟨c, he⟩

theorem processFinalLines_content (ls : List RawLine) :
    ∀ e ∈ processFinalLines ls, ∃ c, e = Ev.contentEv c := by
  induction ls with
  | nil => intro e he; cases he
  | cons l ls ih =>
    intro e he
    by_cases hd : l.isDone = true
    · simp [processFinalLines, hd] at he
    · simp only [processFinalLines, hd, Bool.false_eq_true, if_false,
        List.mem_append] at he
      rcases he with he | he
      · exact lineContent_content l e he
      · exact ih e he

theorem stream_filter_toolEv (ls : List RawLine) (s : StreamAcc) :
    (processLines s ls).2.filter isToolEv = [] := by
  rw [List.filter_eq_nil_iff]
  intro e he
  obtain ⟨c, rfl⟩ := processLines_events_content ls s e he
  simp [isToolEv]

theorem final_filter_toolEv (ls : List RawLine) :
    (processFinalLines ls).filter isToolEv = [] := by
  rw [List.filter_eq_nil_iff]
  intro e he
  obtain ⟨c, rfl⟩ := processFinalLines_content ls e he
  simp [isToolEv]

theorem stream_no_error (ls : List RawLine) (s : StreamAcc) (m : String) :
    Ev.errorEv m ∉ (processLines s ls).2 := by
  intro he
  obtain ⟨c, hc⟩ := processLines_events_content ls s _ he
  cases hc

theorem final_no_error (ls : List RawLine) (m : String) :
    Ev.errorEv m ∉ processFinalLines ls := by
  intro he
  obtain ⟨c, hc⟩ := processFinalLines_content ls _ he
  cases hc

theorem runLoopAux_stop (env : Env) (m : String) (fuel : Nat) (st : LoopSt)
    (h : ¬(st.ntn = true ∧ st.count < maxIterations)) :
    runLoopAux env m (fuel + 1) st = ⟨[], [], [], [], st.msgs, st.ntn, st.count⟩ := by
  rw [runLoopAux, if_neg h]

theorem runLoopAux_step_none (env : Env) (m : String) (fuel : Nat) (st : LoopSt)
    (hg : st.ntn = true ∧ st.count < maxIterations)
    (hsel : selectToolCall (processStream (env.iterStream (st.count + 1))).1.acc = none) :
    runLoopAux env m (fuel + 1) st =
      ⟨(st.count + 1) :: (runLoopAux env m fuel ⟨st.msgs, false, st.count + 1, st.toolIdx⟩).iterCounts,
       iterPayload m st.msgs
         :: (runLoopAux env m fuel ⟨st.msgs, false, st.count + 1, st.toolIdx⟩).payloads,
       (processStream (env.iterStream (st.count + 1))).2
         ++ (runLoopAux env m fuel ⟨st.msgs, false, st.count + 1, st.toolIdx⟩).events,
       (runLoopAux env m fuel ⟨st.msgs, false, st.count + 1, st.toolIdx⟩).tools,
       (runLoopAux env m fuel ⟨st.msgs, false, st.count + 1, st.toolIdx⟩).msgs,
       (runLoopAux env m fuel ⟨st.msgs, false, st.count + 1, st.toolIdx⟩).ntn,
       (runLoopAux env m fuel ⟨st.msgs, false, st.count + 1, st.toolIdx⟩).count⟩ := by
  rw [runLoopAux, if_pos hg]
  dsimp only
  rw [hsel]

theorem runLoopAux_step_fail (env : Env) (m : String) (fuel : Nat) (st : LoopSt)
    (c : ToolCall) (hg : st.ntn = true ∧ st.count < maxIterations)
    (hsel : selectToolCall (processStream (env.iterStream (st.count + 1))).1.acc = some c)
    (ha : env.argsParseOk c.arguments = false) :
    runLoopAux env m (fuel + 1) st =
      ⟨(st.count + 1) :: (runLoopAux env m fuel ⟨st.msgs, false, st.count + 1, st.toolIdx⟩).iterCounts,
       iterPayload m st.msgs
         :: (runLoopAux env m fuel ⟨st.msgs, false, st.count + 1, st.toolIdx⟩).payloads,
       (processStream (env.iterStream (st.count + 1))).2
         ++ [Ev.errorEv (argsErrIterMsg (st.count + 1))]
         ++ (runLoopAux env m fuel ⟨st.msgs, false, st.count + 1, st.toolIdx⟩).events,
       (runLoopAux env m fuel ⟨st.msgs, false, st.count + 1, st.toolIdx⟩).tools,
       (runLoopAux env m fuel ⟨st.msgs, false, st.count + 1, st.toolIdx⟩).msgs,
       (runLoopAux env m fuel ⟨st.msgs, false, st.count + 1, st.toolIdx⟩).ntn,
       (runLoopAux env m fuel ⟨st.msgs, false, st.count + 1, st.toolIdx⟩).count⟩ := by
  rw [runLoopAux, if_pos hg]
  dsimp only
  rw [hsel]
  dsimp only
  rw [if_neg (by simp [ha])]

theorem runLoopAux_step_raise (env : Env) (m : String) (fuel : Nat) (st : LoopSt)
    (c : ToolCall) (hg : st.ntn = true ∧ st.count < maxIterations)
    (hsel : selectToolCall (processStream (env.iterStream (st.count + 1))).1.acc = some c)
    (ha : env.argsParseOk c.arguments = true)
    (hrs : (env.toolOutcome st.toolIdx).raises = true) :
    runLoopAux env m (fuel + 1) st =
      ⟨(st.count + 1) :: (runLoopAux env m fuel ⟨st.msgs, false, st.count + 1, st.toolIdx + 1⟩).iterCounts,
       iterPayload m st.msgs
         :: (runLoopAux env m fuel ⟨st.msgs, false, st.count + 1, st.toolIdx + 1⟩).payloads,
       (processStream (env.iterStream (st.count + 1))).2
         ++ [Ev.toolStartEv (c.name.getD "") c.arguments,
             Ev.errorEv (toolErrIterMsg (st.count + 1))]
         ++ (runLoopAux env m fuel ⟨st.msgs, false, st.count + 1, st.toolIdx + 1⟩).events,
       ⟨c.name.getD "", c.arguments, "", true⟩
         :: (runLoopAux env m fuel ⟨st.msgs, false, st.count + 1, st.toolIdx + 1⟩).tools,
       (runLoopAux env m fuel ⟨st.msgs, false, st.count + 1, st.toolIdx + 1⟩).msgs,
       (runLoopAux env m fuel ⟨st.msgs, false, st.count + 1, st.toolIdx + 1⟩).ntn,
       (runLoopAux env m fuel ⟨st.msgs, false, st.count + 1, st.toolIdx + 1⟩).count⟩ := by
  rw [runLoopAux, if_pos hg]
  dsimp only
  rw [hsel]
  dsimp only
  rw [if_pos ha, if_pos hrs]

theorem runLoopAux_step_tool (env : Env) (m : String) (fuel : Nat) (st : LoopSt)
    (c : ToolCall) (hg : st.ntn = true ∧ st.count < maxIterations)
    (hsel : selectToolCall (processStream (env.iterStream (st.count + 1))).1.acc = some c)
    (ha : env.argsParseOk c.arguments = true)
    (hrs : (env.toolOutcome st.toolIdx).raises = false) :
    runLoopAux env m (fuel + 1) st =
      ⟨(st.count + 1) :: (runLoopAux env m fuel
          ⟨st.msgs ++ [(processStream (env.iterStream (st.count + 1))).1.asstMsg.map asstToMsg,
              some (toolMsg (c.id.getD "") (env.toolOutcome st.toolIdx).text)],
           nextThoughtOf (env.toolOutcome st.toolIdx).json, st.count + 1, st.toolIdx + 1⟩).iterCounts,
       iterPayload m st.msgs :: (runLoopAux env m fuel
          ⟨st.msgs ++ [(processStream (env.iterStream (st.count + 1))).1.asstMsg.map asstToMsg,
              some (toolMsg (c.id.getD "") (env.toolOutcome st.toolIdx).text)],
           nextThoughtOf (env.toolOutcome st.toolIdx).json, st.count + 1, st.toolIdx + 1⟩).payloads,
       (processStream (env.iterStream (st.count + 1))).2
         ++ [Ev.toolStartEv (c.name.getD "") c.arguments,
             Ev.toolRespEv (c.name.getD "") (env.toolOutcome st.toolIdx).text]
         ++ (runLoopAux env m fuel
          ⟨st.msgs ++ [(processStream (env.iterStream (st.count + 1))).1.asstMsg.map asstToMsg,
              some (toolMsg (c.id.getD "") (env.toolOutcome st.toolIdx).text)],
           nextThoughtOf (env.toolOutcome st.toolIdx).json, st.count + 1, st.toolIdx + 1⟩).events,
       ⟨c.name.getD "", c.arguments, (env.toolOutcome st.toolIdx).text, false⟩ :: (runLoopAux env m fuel
          ⟨st.msgs ++ [(processStream (env.iterStream (st.count + 1))).1.asstMsg.map asstToMsg,
              some (toolMsg (c.id.getD "") (env.toolOutcome st.toolIdx).text)],
           nextThoughtOf (env.toolOutcome st.toolIdx).json, st.count + 1, st.toolIdx + 1⟩).tools,
       (runLoopAux env m fuel
          ⟨st.msgs ++ [(processStream (env.iterStream (st.count + 1))).1.asstMsg.map asstToMsg,
              some (toolMsg (c.id.getD "") (env.toolOutcome st.toolIdx).text)],
           nextThoughtOf (env.toolOutcome st.toolIdx).json, st.count + 1, st.toolIdx + 1⟩).msgs,
       (runLoopAux env m fuel
          ⟨st.msgs ++ [(processStream (env.iterStream (st.count + 1))).1.asstMsg.map asstToMsg,
              some (toolMsg (c.id.getD "") (env.toolOutcome st.toolIdx).text)],
           nextThoughtOf (env.toolOutcome st.toolIdx).json, st.count + 1, st.toolIdx + 1⟩).ntn,
       (runLoopAux env m fuel
          ⟨st.msgs ++ [(processStream (env.iterStream (st.count + 1))).1.asstMsg.map asstToMsg,
              some (toolMsg (c.id.getD "") (env.toolOutcome st.toolIdx).text)],
           nextThoughtOf (env.toolOutcome st.toolIdx).json, st.count + 1, st.toolIdx + 1⟩).count⟩ := by
  rw [runLoopAux, if_pos hg]
  dsimp only
  rw [hsel]
  dsimp only
  rw [if_pos ha, if_neg (by simp [hrs])]

theorem runLoopAux_spec (env : Env) (m : String) :
    ∀ fuel st, ∃ n, n ≤ fuel
      ∧ (runLoopAux env m fuel st).count = st.count + n
      ∧ (runLoopAux env m fuel st).iterCounts = List.range' (st.count + 1) n := by
  intro fuel
  induction fuel with
  | zero =>
    intro st
    exact ⟨0, le_rfl, by simp [runLoopAux], by simp [runLoopAux, List.range']⟩
  | succ fuel ih =>
    intro st
    by_cases hg : st.ntn = true ∧ st.count < maxIterations
    · cases hsel : selectToolCall (processStream (env.iterStream (st.count + 1))).1.acc with
      | none =>
        obtain ⟨n, hn, hc, hi⟩ := ih ⟨st.msgs, false, st.count + 1, st.toolIdx⟩
        rw [runLoopAux_step_none env m fuel st hg hsel]
        refine ⟨n + 1, by omega, ?_, ?_⟩
        · dsimp only
          rw [hc]
          dsimp only
          omega
        · dsimp only
          rw [hi]
          dsimp only
          simp [List.range']
      | some c =>
        by_cases ha : env.argsParseOk c.arguments = true
        · by_cases hrs : (env.toolOutcome st.toolIdx).raises = true
          · obtain ⟨n, hn, hc, hi⟩ := ih ⟨st.msgs, false, st.count + 1, st.toolIdx + 1⟩
            rw [runLoopAux_step_raise env m fuel st c hg hsel ha hrs]
            refine ⟨n + 1, by omega, ?_, ?_⟩
            · dsimp only
              rw [hc]
              dsimp only
              omega
            · dsimp only
              rw [hi]
              dsimp only
              simp [List.range']
          · have hrs' : (env.toolOutcome st.toolIdx).raises = false := by simpa using hrs
            obtain ⟨n, hn, hc, hi⟩ := ih
              ⟨st.msgs ++ [(processStream (env.iterStream (st.count + 1))).1.asstMsg.map asstToMsg,
                  some (toolMsg (c.id.getD "") (env.toolOutcome st.toolIdx).text)],
               nextThoughtOf (env.toolOutcome st.toolIdx).json, st.count + 1, st.toolIdx + 1⟩
            rw [runLoopAux_step_tool env m fuel st c hg hsel ha hrs']
            refine ⟨n + 1, by omega, ?_, ?_⟩
            · dsimp only
              rw [hc]
              dsimp only
              omega
            · dsimp only
              rw [hi]
              dsimp only
              simp [List.range']
        · have ha' : env.argsParseOk c.arguments = false := by simpa using ha
          obtain ⟨n, hn, hc, hi⟩ := ih ⟨st.msgs, false, st.count + 1, st.toolIdx⟩
          rw [runLoopAux_step_fail env m fuel st c hg hsel ha']
          refine ⟨n + 1, by omega, ?_, ?_⟩
          · dsimp only
            rw [hc]
            dsimp only
            omega
          · dsimp only
            rw [hi]
            dsimp only
            simp [List.range']
    · rw [runLoopAux_stop env m fuel st hg]
      exact ⟨0, by omega, by simp, by simp [List.range']⟩

theorem runLoopAux_payloads (env : Env) (m : String) :
    ∀ fuel st p, p ∈ (runLoopAux env m fuel st).payloads →
      p.tools = some [sequentialThinkingTool] ∧ p.tool_choice = some "auto" := by
  intro fuel
  induction fuel with
  | zero => intro st p hp; simp [runLoopAux] at hp
  | succ fuel ih =>
    intro st p hp
    by_cases hg : st.ntn = true ∧ st.count < maxIterations
    · cases hsel : selectToolCall (processStream (env.iterStream (st.count + 1))).1.acc with
      | none =>
        rw [runLoopAux_step_none env m fuel st hg hsel] at hp
        dsimp only at hp
        rcases List.mem_cons.mp hp with h | h
        · subst h; exact ⟨rfl, rfl⟩
        · exact ih _ p h
      | some c =>
        by_cases ha : env.argsParseOk c.arguments = true
        · by_cases hrs : (env.toolOutcome st.toolIdx).raises = true
          · rw [runLoopAux_step_raise env m fuel st c hg hsel ha hrs] at hp
            dsimp only at hp
            rcases List.mem_cons.mp hp with h | h
            · subst h; exact ⟨rfl, rfl⟩
            · exact ih _ p h
          · have hrs' : (env.toolOutcome st.toolIdx).raises = false := by simpa using hrs
            rw [runLoopAux_step_tool env m fuel st c hg hsel ha hrs'] at hp
            dsimp only at hp
            rcases List.mem_cons.mp hp with h | h
            · subst h; exact ⟨rfl, rfl⟩
            · exact ih _ p h
        · have ha' : env.argsParseOk c.arguments = false := by simpa using ha
          rw [runLoopAux_step_fail env m fuel st c hg hsel ha'] at hp
          dsimp only at hp
          rcases List.mem_cons.mp hp with h | h
          · subst h; exact ⟨rfl, rfl⟩
          · exact ih _ p h
    · rw [runLoopAux_stop env m fuel st hg] at hp
      simp at hp

theorem processStream_filter_toolEv (ls : List RawLine) :
    (processStream ls).2.filter isToolEv = [] :=
  stream_filter_toolEv ls initStreamAcc

/-- The client-visible shape of one loop tool invocation: a returning
invocation is a `tool_call_start` immediately followed by the matching
`tool_call_response`; a raising invocation is an unpaired
`tool_call_start` (its response position is taken by an error event). -/
def toolEventsOf (r : LoopToolRec) : List Ev :=
  if r.raised then [Ev.toolStartEv r.name r.args]
  else [Ev.toolStartEv r.name r.args, Ev.toolRespEv r.name r.resp]

theorem runLoopAux_toolEvents (env : Env) (m : String) :
    ∀ fuel st, (runLoopAux env m fuel st).events.filter isToolEv
      = ((runLoopAux env m fuel st).tools.map toolEventsOf).flatten := by
  intro fuel
  induction fuel with
  | zero => intro st; simp [runLoopAux]
  | succ fuel ih =>
    intro st
    by_cases hg : st.ntn = true ∧ st.count < maxIterations
    · cases hsel : selectToolCall (processStream (env.iterStream (st.count + 1))).1.acc with
      | none =>
        rw [runLoopAux_step_none env m fuel st hg hsel]
        dsimp only
        rw [List.filter_append, processStream_filter_toolEv, ih]
        simp
      | some c =>
        by_cases ha : env.argsParseOk c.arguments = true
        · by_cases hrs : (env.toolOutcome st.toolIdx).raises = true
          · rw [runLoopAux_step_raise env m fuel st c hg hsel ha hrs]
            dsimp only
            rw [List.filter_append, List.filter_append, processStream_filter_toolEv, ih]
            simp [isToolEv, toolEventsOf]
          · have hrs' : (env.toolOutcome st.toolIdx).raises = false := by simpa using hrs
            rw [runLoopAux_step_tool env m fuel st c hg hsel ha hrs']
            dsimp only
            rw [List.filter_append, List.filter_append, processStream_filter_toolEv, ih]
            simp [isToolEv, toolEventsOf]
        · have ha' : env.argsParseOk c.arguments = false := by simpa using ha
          rw [runLoopAux_step_fail env m fuel st c hg hsel ha']
          dsimp only
          rw [List.filter_append, List.filter_append, processStream_filter_toolEv, ih]
          simp [isToolEv]
    · rw [runLoopAux_stop env m fuel st hg]
      simp

/- ### Branch equations for the `/chat` run -/

theorem runChat_nokey (req : ChatRequest) (env : Env)
    (hk : pyTruthy req.apiKey = false) :
    runChat req env = ⟨[Ev.errorEv apiKeyErrMsg], [], none, [], [], 0, false⟩ := by
  rw [runChat, if_pos hk]

theorem runChat_nomodel (req : ChatRequest) (env : Env)
    (hk : pyTruthy req.apiKey = true) (hm : pyTruthy req.modelId = false) :
    runChat req env = ⟨[Ev.errorEv modelErrMsg], [], none, [], [], 0, false⟩ := by
  rw [runChat, if_neg (by simp [hk]), if_pos hm]

theorem runChat_noTool (req : ChatRequest) (env : Env)
    (hk : pyTruthy req.apiKey = true) (hm : pyTruthy req.modelId = true)
    (hsel : selectToolCall (processStream env.firstStream).1.acc = none) :
    runChat req env = ⟨(processStream env.firstStream).2, [firstPayload req],
      none, [], [], 0, false⟩ := by
  rw [runChat, if_neg (by simp [hk]), if_neg (by simp [hm]), hsel]

theorem runChat_argsFail (req : ChatRequest) (env : Env) (c : ToolCall)
    (hk : pyTruthy req.apiKey = true) (hm : pyTruthy req.modelId = true)
    (hsel : selectToolCall (processStream env.firstStream).1.acc = some c)
    (ha : env.argsParseOk c.arguments = false) :
    runChat req env = ⟨(processStream env.firstStream).2 ++ [Ev.errorEv argsErrMsg],
      [firstPayload req], none, [], [], 0, false⟩ := by
  rw [runChat, if_neg (by simp [hk]), if_neg (by simp [hm]), hsel]
  dsimp only
  rw [if_neg (by simp [ha])]

theorem runChat_tool_raise (req : ChatRequest) (env : Env) (c : ToolCall)
    (hk : pyTruthy req.apiKey = true) (hm : pyTruthy req.modelId = true)
    (hsel : selectToolCall (processStream env.firstStream).1.acc = some c)
    (ha : env.argsParseOk c.arguments = true)
    (hrs : (env.toolOutcome 0).raises = true) :
    runChat req env =
      ⟨(processStream env.firstStream).2 ++ [Ev.errorEv toolErrMsg],
       [firstPayload req], some (c.name.getD "", c.arguments), [], [], 0, false⟩ := by
  rw [runChat, if_neg (by simp [hk]), if_neg (by simp [hm]), hsel]
  dsimp only
  rw [if_pos ha, if_pos hrs]

theorem runChat_tool_ntn (req : ChatRequest) (env : Env) (c : ToolCall)
    (hk : pyTruthy req.apiKey = true) (hm : pyTruthy req.modelId = true)
    (hsel : selectToolCall (processStream env.firstStream).1.acc = some c)
    (ha : env.argsParseOk c.arguments = true)
    (hrs : (env.toolOutcome 0).raises = false)
    (hn : (chatLoop req env c).ntn = true) :
    runChat req env =
      ⟨(processStream env.firstStream).2 ++ (chatLoop req env c).events
         ++ cappedEvents req env c,
       firstPayload req :: (chatLoop req env c).payloads,
       some (c.name.getD "", c.arguments), (chatLoop req env c).tools,
       (chatLoop req env c).iterCounts, (chatLoop req env c).count,
       (chatLoop req env c).ntn⟩ := by
  rw [runChat, if_neg (by simp [hk]), if_neg (by simp [hm]), hsel]
  dsimp only
  rw [if_pos ha, if_neg (by simp [hrs]), if_pos hn]

theorem runChat_tool_final (req : ChatRequest) (env : Env) (c : ToolCall)
    (hk : pyTruthy req.apiKey = true) (hm : pyTruthy req.modelId = true)
    (hsel : selectToolCall (processStream env.firstStream).1.acc = some c)
    (ha : env.argsParseOk c.arguments = true)
    (hrs : (env.toolOutcome 0).raises = false)
    (hn : (chatLoop req env c).ntn = false) :
    runChat req env =
      ⟨(processStream env.firstStream).2 ++ (chatLoop req env c).events
         ++ cappedEvents req env c ++ processFinalLines env.finalStream,
       firstPayload req :: (chatLoop req env c).payloads
         ++ [finalPayload (req.modelId.getD "") (chatLoop req env c).msgs],
       some (c.name.getD "", c.arguments), (chatLoop req env c).tools,
       (chatLoop req env c).iterCounts, (chatLoop req env c).count,
       (chatLoop req env c).ntn⟩ := by
  rw [runChat, if_neg (by simp [hk]), if_neg (by simp [hm]), hsel]
  dsimp only
  rw [if_pos ha, if_neg (by simp [hrs]), if_neg (by simp [hn])]

/- ### Concrete runs -/

/-- A syntactically valid JSON arguments object for the sequential-thinking
tool, as `json.loads` would accept it. -/
def seqArgs : String :=
  "\x7b\"thought\": \"t\", \"nextThoughtNeeded\": true, \"thoughtNumber\": 1, \"totalThoughts\": 1\x7d"

/-- A tool result that is a JSON object with `nextThoughtNeeded: true`. -/
def loopToolJson : String := "\x7b\"nextThoughtNeeded\": true\x7d"

/-- A complete streamed tool call, carrying valid JSON arguments. -/
def tcOk : ToolCall := ⟨some "id1", some "sequentialthinking", seqArgs⟩

/-- An incomplete streamed tool call: its function name is absent. -/
def tcBad : ToolCall := ⟨some "b1", none, "x"⟩

/-- A stream turn delivering the single complete call `tcOk`. -/
def streamToolCall : List RawLine :=
  [RawLine.chunk (some ⟨some [tcOk], none⟩), RawLine.doneLine]

/-- A well-formed inbound request. -/
def reqOk : ChatRequest := ⟨"p", some "k", some "m", none, []⟩

/-- A request missing both credentials. -/
def reqNoCreds : ChatRequest := ⟨"p", none, none, none, []⟩

/-- A trivial environment (never reached past the credential checks). -/
def envEmpty : Env :=
  ⟨[], fun _ => [], [], fun _ => ⟨false, "", ToolResultJson.parseFail⟩,
   fun s => s == seqArgs⟩

/-- An environment in which every turn streams a complete tool call and the
tool always returns (without raising) the JSON object
`\x7b"nextThoughtNeeded": true\x7d`. Arguments parse exactly when they are
the valid JSON text `seqArgs` — the only arguments string this environment
ever accumulates. -/
def envLoop : Env :=
  ⟨streamToolCall, fun _ => streamToolCall, [],
   fun _ => ⟨false, loopToolJson, ToolResultJson.obj (some true)⟩,
   fun s => s == seqArgs⟩

/-- An environment in which the first turn streams a complete tool call and
the tool returns (without raising) the literal non-JSON text `ok`. -/
def envFin : Env :=
  ⟨streamToolCall, fun _ => streamToolCall, [],
   fun _ => ⟨false, "ok", ToolResultJson.parseFail⟩,
   fun s => s == seqArgs⟩

/-- An environment whose first turn accumulates an incomplete call *ahead of*
a complete one. -/
def envC5 : Env :=
  ⟨[RawLine.chunk (some ⟨some [tcBad, tcOk], none⟩), RawLine.doneLine],
   fun _ => [], [], fun _ => ⟨false, "", ToolResultJson.parseFail⟩,
   fun s => s == seqArgs⟩

/- ### Claim C1 -/

/-- C1: the sequential-thinking loop starts from `iteration_count = 0`,
increments it by exactly one at the start of each pass (the executed passes
carry counts `1, 2, ..., n`), and executes its body at most
`max_iterations = 10` times, for every environment — in particular even when
the tool always answers `nextThoughtNeeded: true`. -/
theorem loop_iteration_bound (req : ChatRequest) (env : Env) :
    ∃ n, n ≤ maxIterations
      ∧ (runChat req env).loopIterCounts = List.range' 1 n
      ∧ (runChat req env).loopCount = n := by
  by_cases hk : pyTruthy req.apiKey = false
  · rw [runChat_nokey req env hk]
    exact ⟨0, Nat.zero_le _, rfl, rfl⟩
  · have hk' : pyTruthy req.apiKey = true := by simpa using hk
    by_cases hm : pyTruthy req.modelId = false
    · rw [runChat_nomodel req env hk' hm]
      exact ⟨0, Nat.zero_le _, rfl, rfl⟩
    · have hm' : pyTruthy req.modelId = true := by simpa using hm
      cases hsel : selectToolCall (processStream env.firstStream).1.acc with
      | none =>
        rw [runChat_noTool req env hk' hm' hsel]
        exact ⟨0, Nat.zero_le _, rfl, rfl⟩
      | some c =>
        by_cases ha : env.argsParseOk c.arguments = true
        · by_cases hrs : (env.toolOutcome 0).raises = true
          · rw [runChat_tool_raise req env c hk' hm' hsel ha hrs]
            exact ⟨0, Nat.zero_le _, rfl, rfl⟩
          · have hrs' : (env.toolOutcome 0).raises = false := by simpa using hrs
            obtain ⟨n, hn, hc, hi⟩ := runLoopAux_spec env (req.modelId.getD "") maxIterations
              ⟨chatMsgs0 req env c, nextThoughtOf (env.toolOutcome 0).json, 0, 1⟩
            have hch : chatLoop req env c
                = runLoopAux env (req.modelId.getD "") maxIterations
                    ⟨chatMsgs0 req env c, nextThoughtOf (env.toolOutcome 0).json, 0, 1⟩ := rfl
            by_cases hntn : (chatLoop req env c).ntn = true
            · rw [runChat_tool_ntn req env c hk' hm' hsel ha hrs' hntn]
              refine ⟨n, hn, ?_, ?_⟩
              · dsimp only
                rw [hch, hi]
              · dsimp only
                rw [hch, hc]
                simp
            · rw [runChat_tool_final req env c hk' hm' hsel ha hrs' (by simpa using hntn)]
              refine ⟨n, hn, ?_, ?_⟩
              · dsimp only
                rw [hch, hi]
              · dsimp only
                rw [hch, hc]
                simp
        · have ha' : env.argsParseOk c.arguments = false := by simpa using ha
          rw [runChat_argsFail req env c hk' hm' hsel ha']
          exact ⟨0, Nat.zero_le _, rfl, rfl⟩

/- ### Claim C10 -/

/-- C10: a request with an absent or empty `apiKey` yields exactly the
API-key error event and stops — no upstream request, no tool invocation —
and the `apiKey` check comes first; with a truthy `apiKey` but an absent or
empty `modelId`, exactly the model-id error event is yielded and the run
stops likewise. -/
theorem missing_credentials (req : ChatRequest) (env : Env) :
    (pyTruthy req.apiKey = false →
      runChat req env = ⟨[Ev.errorEv apiKeyErrMsg], [], none, [], [], 0, false⟩)
    ∧ (pyTruthy req.apiKey = true → pyTruthy req.modelId = false →
      runChat req env = ⟨[Ev.errorEv modelErrMsg], [], none, [], [], 0, false⟩) :=
  ⟨fun hk => runChat_nokey req env hk, fun hk hm => runChat_nomodel req env hk hm⟩

/-- Witness for `missing_credentials`: a request missing both credentials
yields only the API-key error and issues no upstream request. -/
theorem missing_credentials_witness :
    pyTruthy reqNoCreds.apiKey = false
    ∧ runChat reqNoCreds envEmpty = ⟨[Ev.errorEv apiKeyErrMsg], [], none, [], [], 0, false⟩ :=
  ⟨rfl, (missing_credentials reqNoCreds envEmpty).1 rfl⟩

/- ### Claim C2 -/

/-- C2 counterexample: with a tool that always answers
`nextThoughtNeeded: true`, the loop exits at the bound (`loopCount = 10`,
flag still true), the capped-iteration error is the *last* event of the run,
and every issued upstream request still carries the tool schema — so no
finalization request is made, contradicting the claim that the best-effort
plain-text call is still issued. -/
theorem capped_no_finalization_cex :
    (runChat reqOk envLoop).loopCount = 10
    ∧ (runChat reqOk envLoop).loopNtn = true
    ∧ (runChat reqOk envLoop).events.getLast? = some cappedEvent
    ∧ (runChat reqOk envLoop).requests.map Payload.tools
        = List.replicate 11 (some [sequentialThinkingTool]) :=
  ⟨rfl, rfl, rfl, rfl⟩

/-- C2 (amended): if the loop exits because the iteration bound was reached
while `nextThoughtNeeded` was still true, the capped-iteration error event
is sent (as the final event of the run), but the finalization request is
NOT issued: every upstream request of the run carries the tool schema. -/
theorem capped_event_no_finalization (req : ChatRequest) (env : Env)
    (h10 : maxIterations ≤ (runChat req env).loopCount)
    (hntn : (runChat req env).loopNtn = true) :
    (runChat req env).events.getLast? = some cappedEvent
    ∧ ∀ p ∈ (runChat req env).requests, p.tools = some [sequentialThinkingTool] := by
  by_cases hk : pyTruthy req.apiKey = false
  · rw [runChat_nokey req env hk] at hntn
    cases hntn
  · have hk' : pyTruthy req.apiKey = true := by simpa using hk
    by_cases hm : pyTruthy req.modelId = false
    · rw [runChat_nomodel req env hk' hm] at hntn
      cases hntn
    · have hm' : pyTruthy req.modelId = true := by simpa using hm
      cases hsel : selectToolCall (processStream env.firstStream).1.acc with
      | none =>
        rw [runChat_noTool req env hk' hm' hsel] at hntn
        cases hntn
      | some c =>
        by_cases ha : env.argsParseOk c.arguments = true
        · by_cases hrs : (env.toolOutcome 0).raises = true
          · rw [runChat_tool_raise req env c hk' hm' hsel ha hrs] at hntn
            cases hntn
          · have hrs' : (env.toolOutcome 0).raises = false := by simpa using hrs
            by_cases hn : (chatLoop req env c).ntn = true
            · rw [runChat_tool_ntn req env c hk' hm' hsel ha hrs' hn] at h10 ⊢
              dsimp only at h10 ⊢
              have hcap : cappedEvents req env c = [cappedEvent] := by
                unfold cappedEvents
                rw [if_pos h10]
              constructor
              · rw [hcap]
                exact List.getLast?_concat _
              · intro p hp
                rcases List.mem_cons.mp hp with h | h
                · subst h; rfl
                · exact (runLoopAux_payloads env (req.modelId.getD "") maxIterations
                    ⟨chatMsgs0 req env c, nextThoughtOf (env.toolOutcome 0).json, 0, 1⟩ p h).1
            · rw [runChat_tool_final req env c hk' hm' hsel ha hrs' (by simpa using hn)] at hntn
              dsimp only at hntn
              rw [hntn] at hn
              exact absurd rfl hn
        · have ha' : env.argsParseOk c.arguments = false := by simpa using ha
          rw [runChat_argsFail req env c hk' hm' hsel ha'] at hntn
          cases hntn

/-- Witness for `capped_event_no_finalization` at the concrete capped run. -/
theorem capped_event_no_finalization_witness :
    maxIterations ≤ (runChat reqOk envLoop).loopCount
    ∧ (runChat reqOk envLoop).events.getLast? = some cappedEvent :=
  ⟨by decide, (capped_event_no_finalization reqOk envLoop (by decide) rfl).1⟩

/- ### Claim C3 -/

/-- C3: any upstream request of a run whose payload lacks the `tools` field
is the finalization request: it also lacks `tool_choice`, it is the last
upstream request of the run, and the run's events end with the finalization
stream's content deltas. -/
theorem finalization_untooled (req : ChatRequest) (env : Env) :
    ∀ p ∈ (runChat req env).requests, p.tools = none →
      p.tool_choice = none
      ∧ (runChat req env).requests.getLast? = some p
      ∧ ∃ pre, (runChat req env).events = pre ++ processFinalLines env.finalStream := by
  by_cases hk : pyTruthy req.apiKey = false
  · rw [runChat_nokey req env hk]
    intro p hp _
    cases hp
  · have hk' : pyTruthy req.apiKey = true := by simpa using hk
    by_cases hm : pyTruthy req.modelId = false
    · rw [runChat_nomodel req env hk' hm]
      intro p hp _
      cases hp
    · have hm' : pyTruthy req.modelId = true := by simpa using hm
      cases hsel : selectToolCall (processStream env.firstStream).1.acc with
      | none =>
        rw [runChat_noTool req env hk' hm' hsel]
        intro p hp ht
        dsimp only at hp
        rcases List.mem_singleton.mp hp with rfl
        cases ht
      | some c =>
        by_cases ha : env.argsParseOk c.arguments = true
        · by_cases hrs : (env.toolOutcome 0).raises = true
          · rw [runChat_tool_raise req env c hk' hm' hsel ha hrs]
            intro p hp ht
            dsimp only at hp
            rcases List.mem_singleton.mp hp with rfl
            cases ht
          · have hrs' : (env.toolOutcome 0).raises = false := by simpa using hrs
            by_cases hn : (chatLoop req env c).ntn = true
            · rw [runChat_tool_ntn req env c hk' hm' hsel ha hrs' hn]
              intro p hp ht
              dsimp only at hp
              rcases List.mem_cons.mp hp with h | h
              · subst h; cases ht
              · have := (runLoopAux_payloads env (req.modelId.getD "") maxIterations
                  ⟨chatMsgs0 req env c, nextThoughtOf (env.toolOutcome 0).json, 0, 1⟩ p h).1
                rw [ht] at this
                cases this
            · rw [runChat_tool_final req env c hk' hm' hsel ha hrs' (by simpa using hn)]
              intro p hp ht
              dsimp only at hp ⊢
              rcases List.mem_cons.mp hp with h | h
              · subst h; cases ht
              · rcases List.mem_append.mp h with h' | h'
                · have := (runLoopAux_payloads env (req.modelId.getD "") maxIterations
                    ⟨chatMsgs0 req env c, nextThoughtOf (env.toolOutcome 0).json, 0, 1⟩ p h').1
                  rw [ht] at this
                  cases this
                · rcases List.mem_singleton.mp h' with rfl
                  refine ⟨rfl, ?_, ?_⟩
                  · exact List.getLast?_concat
                      (firstPayload req :: (chatLoop req env c).payloads)
                  · exact ⟨(processStream env.firstStream).2 ++ (chatLoop req env c).events
                      ++ cappedEvents req env c, rfl⟩
        · have ha' : env.argsParseOk c.arguments = false := by simpa using ha
          rw [runChat_argsFail req env c hk' hm' hsel ha']
          intro p hp ht
          dsimp only at hp
          rcases List.mem_singleton.mp hp with rfl
          cases ht

/-- The finalization payload of the concrete run `runChat reqOk envFin`. -/
def c3FinalPayload : Payload :=
  finalPayload "m" [some (asstToMsg ⟨[tcOk], ""⟩), some (toolMsg "id1" "ok")]

/-- Witness for `finalization_untooled`: in the concrete run the untooled
payload is the last upstream request. -/
theorem finalization_untooled_witness :
    c3FinalPayload ∈ (runChat reqOk envFin).requests
    ∧ (runChat reqOk envFin).requests.getLast? = some c3FinalPayload := by
  have hmem : c3FinalPayload ∈ (runChat reqOk envFin).requests := by
    have hreq : (runChat reqOk envFin).requests = [firstPayload reqOk, c3FinalPayload] := rfl
    rw [hreq]
    exact List.mem_cons_of_mem _ (List.mem_cons_self _ _)
  exact ⟨hmem, (finalization_untooled reqOk envFin c3FinalPayload hmem rfl).2.1⟩

/- ### Claim C5 -/

/-- C5 counterexample: the accumulator holds an incomplete call ahead of a
complete one; the claim says the first *complete* call is invoked, but the
code examines only element 0 and invokes nothing: no tool call is made and
only the single first request is issued. -/
theorem first_call_selection_cex :
    (processStream envC5.firstStream).1.acc = [tcBad, tcOk]
    ∧ isComplete tcOk = true
    ∧ isComplete tcBad = false
    ∧ (runChat reqOk envC5).firstToolCall = none
    ∧ (runChat reqOk envC5).loopTools = []
    ∧ (runChat reqOk envC5).requests.length = 1 :=
  ⟨rfl, rfl, rfl, rfl, rfl, rfl⟩

/-- C5 (amended): only the first accumulated call is ever examined.  If it is
incomplete the turn behaves as if no tool call occurred — nothing is
invoked, only the first request is issued and only the first stream's
content is forwarded — even when a later accumulated call is complete; if
the first call is complete (and its arguments parse) it is the one
invoked. -/
theorem first_call_selection (req : ChatRequest) (env : Env) (c : ToolCall)
    (rest : List ToolCall)
    (hk : pyTruthy req.apiKey = true) (hm : pyTruthy req.modelId = true)
    (hacc : (processStream env.firstStream).1.acc = c :: rest) :
    (isComplete c = false →
      (runChat req env).firstToolCall = none
      ∧ (runChat req env).loopTools = []
      ∧ (runChat req env).requests = [firstPayload req]
      ∧ (runChat req env).events = (processStream env.firstStream).2)
    ∧ (isComplete c = true → env.argsParseOk c.arguments = true →
      (runChat req env).firstToolCall = some (c.name.getD "", c.arguments)) := by
  constructor
  · intro hinc
    have hsel : selectToolCall (processStream env.firstStream).1.acc = none := by
      rw [hacc]
      simp [selectToolCall, hinc]
    rw [runChat_noTool req env hk hm hsel]
    exact ⟨rfl, rfl, rfl, rfl⟩
  · intro hcomp ha
    have hsel : selectToolCall (processStream env.firstStream).1.acc = some c := by
      rw [hacc]
      simp [selectToolCall, hcomp]
    by_cases hrs : (env.toolOutcome 0).raises = true
    · rw [runChat_tool_raise req env c hk hm hsel ha hrs]
    · have hrs' : (env.toolOutcome 0).raises = false := by simpa using hrs
      by_cases hn : (chatLoop req env c).ntn = true
      · rw [runChat_tool_ntn req env c hk hm hsel ha hrs' hn]
      · rw [runChat_tool_final req env c hk hm hsel ha hrs' (by simpa using hn)]

/-- Witness for `first_call_selection` at the concrete two-call stream. -/
theorem first_call_selection_witness :
    isComplete tcBad = false
    ∧ (runChat reqOk envC5).firstToolCall = none :=
  ⟨rfl, ((first_call_selection reqOk envC5 tcBad [tcOk] rfl rfl rfl).1 rfl).1⟩

/- ### Claim C8 -/

/-- C8: when the first turn's head call is complete, its arguments parse and
the tool invocation returns (rather than raising), but the tool's textual
result is not valid JSON, the continuation flag defaults to false: the loop
body never runs, no error event is emitted (the run's events are exactly the
first stream's content followed by the finalization stream's content),
exactly the first request and the untooled finalization request are issued,
and exactly one tool invocation occurs. -/
theorem toolresult_nonjson_finalizes (req : ChatRequest) (env : Env)
    (c : ToolCall) (rest : List ToolCall)
    (hk : pyTruthy req.apiKey = true) (hm : pyTruthy req.modelId = true)
    (hacc : (processStream env.firstStream).1.acc = c :: rest)
    (hcomp : isComplete c = true)
    (ha : env.argsParseOk c.arguments = true)
    (hrs : (env.toolOutcome 0).raises = false)
    (hjson : (env.toolOutcome 0).json = ToolResultJson.parseFail) :
    (runChat req env).loopIterCounts = []
    ∧ (runChat req env).firstToolCall = some (c.name.getD "", c.arguments)
    ∧ (runChat req env).loopTools = []
    ∧ (runChat req env).events
        = (processStream env.firstStream).2 ++ processFinalLines env.finalStream
    ∧ (runChat req env).requests
        = [firstPayload req, finalPayload (req.modelId.getD "") (chatMsgs0 req env c)]
    ∧ (∀ m', Ev.errorEv m' ∉ (runChat req env).events)
    ∧ nextThoughtOf ToolResultJson.parseFail = false := by
  have hsel : selectToolCall (processStream env.firstStream).1.acc = some c := by
    rw [hacc]
    simp [selectToolCall, hcomp]
  have hlo : chatLoop req env c = ⟨[], [], [], [], chatMsgs0 req env c, false, 0⟩ := by
    show runLoopAux env (req.modelId.getD "") (maxIterations - 0)
      ⟨chatMsgs0 req env c, nextThoughtOf (env.toolOutcome 0).json, 0, 1⟩ = _
    rw [hjson]
    exact runLoopAux_stop env (req.modelId.getD "") 9
      ⟨chatMsgs0 req env c, false, 0, 1⟩ (by simp)
  have hn : (chatLoop req env c).ntn = false := by rw [hlo]
  have hcap : cappedEvents req env c = [] := by
    unfold cappedEvents
    rw [hlo]
    simp [maxIterations]
  rw [runChat_tool_final req env c hk hm hsel ha hrs hn]
  dsimp only
  rw [hlo, hcap]
  refine ⟨rfl, rfl, rfl, by simp, by simp [finalPayload], ?_, rfl⟩
  intro m' hmem
  rcases List.mem_append.mp (by simpa using hmem) with h | h
  · exact stream_no_error env.firstStream initStreamAcc m' h
  · exact final_no_error env.finalStream m' h

/-- Witness for `toolresult_nonjson_finalizes`: the tool answers the literal
non-JSON text `ok`; the run finalizes with no error event. -/
theorem toolresult_nonjson_finalizes_witness :
    (envFin.toolOutcome 0).json = ToolResultJson.parseFail
    ∧ (runChat reqOk envFin).events
        = (processStream envFin.firstStream).2 ++ processFinalLines envFin.finalStream :=
  ⟨rfl, (toolresult_nonjson_finalizes reqOk envFin tcOk [] rfl rfl rfl rfl rfl rfl rfl).2.2.2.1⟩

/- ### Claim C9 -/

/-- C9 counterexample: in this run the first streaming turn triggers a tool
invocation (`firstToolCall` records it), yet the client receives no events
at all — in particular no `tool_call_start` and no `tool_call_response` for
that invocation, contradicting the claim that every invocation including the
first turn's is bracketed by the two events. -/
theorem first_invocation_no_events_cex :
    (runChat reqOk envFin).firstToolCall = some ("sequentialthinking", seqArgs)
    ∧ (runChat reqOk envFin).events = [] :=
  ⟨rfl, rfl⟩

/-- C9 (amended): exactly the loop's tool invocations are announced with
client-visible events — the run's tool events are precisely, in order, for
each loop invocation a `tool_call_start`, immediately followed by the
matching `tool_call_response` when the invocation returns, but left unpaired
when the invocation raises (the response position is taken by an error
event).  The first turn's invocation contributes no such events. -/
theorem loop_tool_events_paired (req : ChatRequest) (env : Env) :
    (runChat req env).events.filter isToolEv
      = ((runChat req env).loopTools.map (fun r =>
          if r.raised then [Ev.toolStartEv r.name r.args]
          else [Ev.toolStartEv r.name r.args, Ev.toolRespEv r.name r.resp])).flatten := by
  have hcapfil : ∀ c, (cappedEvents req env c).filter isToolEv = [] := by
    intro c
    unfold cappedEvents
    split
    · simp [cappedEvent, isToolEv]
    · simp
  by_cases hk : pyTruthy req.apiKey = false
  · rw [runChat_nokey req env hk]
    simp [isToolEv]
  · have hk' : pyTruthy req.apiKey = true := by simpa using hk
    by_cases hm : pyTruthy req.modelId = false
    · rw [runChat_nomodel req env hk' hm]
      simp [isToolEv]
    · have hm' : pyTruthy req.modelId = true := by simpa using hm
      cases hsel : selectToolCall (processStream env.firstStream).1.acc with
      | none =>
        rw [runChat_noTool req env hk' hm' hsel]
        dsimp only
        rw [processStream_filter_toolEv]
        simp
      | some c =>
        by_cases ha : env.argsParseOk c.arguments = true
        · have hloop := runLoopAux_toolEvents env (req.modelId.getD "") maxIterations
            ⟨chatMsgs0 req env c, nextThoughtOf (env.toolOutcome 0).json, 0, 1⟩
          by_cases hrs : (env.toolOutcome 0).raises = true
          · rw [runChat_tool_raise req env c hk' hm' hsel ha hrs]
            dsimp only
            rw [List.filter_append, processStream_filter_toolEv]
            simp [isToolEv]
          · have hrs' : (env.toolOutcome 0).raises = false := by simpa using hrs
            by_cases hn : (chatLoop req env c).ntn = true
            · rw [runChat_tool_ntn req env c hk' hm' hsel ha hrs' hn]
              dsimp only
              rw [List.filter_append, List.filter_append, processStream_filter_toolEv,
                hcapfil c]
              simpa [toolEventsOf] using hloop
            · rw [runChat_tool_final req env c hk' hm' hsel ha hrs' (by simpa using hn)]
              dsimp only
              rw [List.filter_append, List.filter_append, List.filter_append,
                processStream_filter_toolEv, hcapfil c, final_filter_toolEv]
              simpa [toolEventsOf] using hloop
        · have ha' : env.argsParseOk c.arguments = false := by simpa using ha
          rw [runChat_argsFail req env c hk' hm' hsel ha']
          dsimp only
          rw [List.filter_append, processStream_filter_toolEv]
          simp [isToolEv]
